import Mathlib

/-!
# Verification of the planner generator (`planner_gen.py`)

This file gives a shallow embedding of the planner generator:

* the Gregorian/ISO-8601 calendar arithmetic of CPython's `datetime` module
  (`_is_leap`, `_days_before_year`, `_days_in_month`, `_days_before_month`,
  `_ymd2ord`, `_ord2ymd`, `_isoweek1monday`, `date.isocalendar`,
  `date.fromisocalendar`), which the script calls into;
* the page-planning week loop, the blank-page padding step and the A4 sheet
  imposition loop of `planner_gen.py` itself.

A Python `datetime.date` is represented by its proleptic-Gregorian ordinal
(`date.toordinal()`, with 0001-01-01 having ordinal 1), a natural number.
All arithmetic is on `Nat`; Python's `//` and `%` on the non-negative values
involved agree with `Nat` division and remainder.
-/

namespace Planner

/-! ## CPython `datetime` calendar core -/

/-- CPython `_DAYS_IN_MONTH` (index 0 is an unused sentinel, `-1` in CPython). -/
def DAYS_IN_MONTH : List Nat := [0, 31, 28, 31, 30, 31, 30, 31, 31, 30, 31, 30, 31]

/-- CPython `_DAYS_BEFORE_MONTH`: running sums of `_DAYS_IN_MONTH`
(index 0 is an unused sentinel, `-1` in CPython). -/
def DAYS_BEFORE_MONTH : List Nat := [0, 0, 31, 59, 90, 120, 151, 181, 212, 243, 273, 304, 334]

/-- CPython `_is_leap(year)`: `year % 4 == 0 and (year % 100 != 0 or year % 400 == 0)`. -/
def is_leap (year : Nat) : Bool := year % 4 == 0 && (year % 100 != 0 || year % 400 == 0)

/-- CPython `_days_before_year(year)`: number of days before January 1st of `year`. -/
def days_before_year (year : Nat) : Nat :=
  let y := year - 1
  y * 365 + y / 4 - y / 100 + y / 400

/-- CPython `_days_in_month(year, month)`. -/
def days_in_month (year month : Nat) : Nat :=
  if month == 2 && is_leap year then 29 else DAYS_IN_MONTH.getD month 0

/-- CPython `_days_before_month(year, month)`: days in `year` preceding first of `month`. -/
def days_before_month (year month : Nat) : Nat :=
  DAYS_BEFORE_MONTH.getD month 0 + (if month > 2 && is_leap year then 1 else 0)

/-- CPython `_ymd2ord(year, month, day)`: proleptic Gregorian ordinal, 0001-01-01 ↦ 1. -/
def ymd2ord (year month day : Nat) : Nat :=
  days_before_year year + days_before_month year month + day

/-- Number of days in `year`. -/
def year_length (year : Nat) : Nat := if is_leap year then 366 else 365

/-- The month-estimation tail of CPython `_ord2ymd`: given the `leapyear` flag and the
day offset `n` within the year (`0 ≤ n < 365 + leapyear`), recover `(month, day)`.
CPython computes `month = (n + 50) >> 5` (i.e. `(n + 50) / 32`) and then corrects the
estimate downward by one month if the days preceding that month exceed `n`. -/
def find_month_day (leapyear : Bool) (n : Nat) : Nat × Nat :=
  let month := (n + 50) / 32
  let preceding := DAYS_BEFORE_MONTH.getD month 0 + (if month > 2 && leapyear then 1 else 0)
  if preceding > n then
    let month' := month - 1
    let preceding' :=
      preceding - (DAYS_IN_MONTH.getD month' 0 + (if month' == 2 && leapyear then 1 else 0))
    (month', n - preceding' + 1)
  else
    (month, n - preceding + 1)

/-- CPython `_ord2ymd(n)`: ordinal to `(year, month, day)`.
`146097` is `_DI400Y` (days in 400 years), `36524` is `_DI100Y`, `1461` is `_DI4Y`. -/
def ord2ymd (n : Nat) : Nat × Nat × Nat :=
  let n0 := n - 1
  let n400 := n0 / 146097
  let r400 := n0 % 146097
  let n100 := r400 / 36524
  let r100 := r400 % 36524
  let n4 := r100 / 1461
  let r4 := r100 % 1461
  let n1 := r4 / 365
  let rest := r4 % 365
  let year := n400 * 400 + 1 + n100 * 100 + n4 * 4 + n1
  if n1 == 4 || n100 == 4 then
    (year - 1, 12, 31)
  else
    let leapyear := n1 == 3 && (n4 != 24 || n100 == 3)
    let md := find_month_day leapyear rest
    (year, md.1, md.2)

/-- `date.year` of the date with ordinal `n`. -/
def yearOf (n : Nat) : Nat := (ord2ymd n).1

/-- `date.month` of the date with ordinal `n`. -/
def monthOf (n : Nat) : Nat := (ord2ymd n).2.1

/-- `date.day` of the date with ordinal `n`. -/
def domOf (n : Nat) : Nat := (ord2ymd n).2.2

/-- CPython `date.isoweekday()`: `self.toordinal() % 7 or 7` (Monday = 1 … Sunday = 7). -/
def isoweekday (n : Nat) : Nat := if n % 7 == 0 then 7 else n % 7

/-- CPython `_isoweek1monday(year)`: ordinal of the Monday starting ISO week 1 of `year`
(the week containing the first Thursday of `year`). -/
def isoweek1monday (year : Nat) : Nat :=
  let THURSDAY := 3
  let firstday := ymd2ord year 1 1
  let firstweekday := (firstday + 6) % 7
  let week1monday := firstday - firstweekday
  if firstweekday > THURSDAY then week1monday + 7 else week1monday

/-- CPython `date.isocalendar()` for the date with ordinal `today`:
returns `(iso_year, iso_week, iso_weekday)`.  CPython computes
`week, day = divmod(today - week1monday, 7)`; the `week < 0` branch (the date belongs
to the final ISO week of the previous year) is the `today < week1monday` case here,
where CPython recomputes both `week` and `day` from the previous year's week-1 Monday. -/
def isocalendar (today : Nat) : Nat × Nat × Nat :=
  let year := yearOf today
  let week1monday := isoweek1monday year
  if today < week1monday then
    let year' := year - 1
    let week1monday' := isoweek1monday year'
    (year', (today - week1monday') / 7 + 1, (today - week1monday') % 7 + 1)
  else
    let week := (today - week1monday) / 7
    let day := (today - week1monday) % 7
    if 52 ≤ week ∧ isoweek1monday (year + 1) ≤ today then
      (year + 1, 1, day + 1)
    else
      (year, week + 1, day + 1)

/-- `date.isocalendar().week` of the date with ordinal `n`. -/
def isoweekOf (n : Nat) : Nat := (isocalendar n).2.1

/-- CPython `date.fromisocalendar(year, week, day)` as an ordinal:
`_isoweek1monday(year) + (week - 1) * 7 + (day - 1)`. -/
def fromisocalendar (year week day : Nat) : Nat :=
  isoweek1monday year + (week - 1) * 7 + (day - 1)

/-- A date `(year, month, day)` is valid in the proleptic Gregorian calendar. -/
def ValidDate (year month day : Nat) : Prop :=
  1 ≤ year ∧ 1 ≤ month ∧ month ≤ 12 ∧ 1 ≤ day ∧ day ≤ days_in_month year month

instance (y m d : Nat) : Decidable (ValidDate y m d) := by
  unfold ValidDate; infer_instance

/-! ## The planner script (`planner_gen.py`)

The script is modelled at the level of the data it computes: a Python
`datetime.date` is its ordinal; the `TemplatePageManager` is the pair of its
`replacements` dictionary and its `a5_pages` list; `add_page_from_template`
records the template name, the output name, the page number
(`next_page_number`, prefixed to the written file name) and the snapshot of
the replacement dictionary that is substituted into the template at that
moment; `add_blank_page` appends `none` (Python `None`).  File system writes
and the external `cairosvg`/`gs` invocations carry no further information. -/

/-- Upper-case English month names as produced by `date.strftime("%B").upper()`
(index 0 unused). -/
def MONTH_NAMES_UPPER : List String :=
  ["", "JANUARY", "FEBRUARY", "MARCH", "APRIL", "MAY", "JUNE", "JULY",
   "AUGUST", "SEPTEMBER", "OCTOBER", "NOVEMBER", "DECEMBER"]

def month_name_upper (m : Nat) : String := MONTH_NAMES_UPPER.getD m ""

/-- The rolling replacement dictionary `template_page_manager.replacements`. -/
def ReplMap : Type := String → Option String

def emptyRepl : ReplMap := fun _ => none

/-- `self.replacements[pattern] = replacement` -/
def setRepl (r : ReplMap) (k v : String) : ReplMap := fun s => if s = k then some v else r s

/-- One page generated by `add_page_from_template`. -/
structure A5Page where
  /-- the `template_name` argument -/
  template : String
  /-- the `output_name` argument -/
  output : String
  /-- `next_page_number()` at emission, prefixed as `{num:03d}_` to the file name -/
  num : Nat
  /-- snapshot of the replacement dictionary substituted into the template -/
  repl : ReplMap

/-- The mutable state of `TemplatePageManager` used by the week loop. -/
structure PMState where
  replacements : ReplMap
  a5_pages : List (Option A5Page)

/-- `add_blank_page`: `self.a5_pages.append(None)`. -/
def add_blank_page (st : PMState) : PMState :=
  { st with a5_pages := st.a5_pages ++ [none] }

/-- `add_page_from_template(template_name, output_name)`. -/
def add_page_from_template (st : PMState) (template_name output_name : String) : PMState :=
  { st with
    a5_pages := st.a5_pages
      ++ [some ⟨template_name, output_name, st.a5_pages.length + 1, st.replacements⟩] }

/-- The key `'{' + str(day+1) + '}'` of grid cell `day`. -/
def grid_key (day : Nat) : String := "\x7b" ++ toString (day + 1) ++ "\x7d"

/-- `first_day_of_grid`: the Monday on/before the 1st of the month,
`datetime.date(year,month,1) - timedelta(days=first_day_of_month.isocalendar().weekday - 1)`. -/
def first_grid_day (year month : Nat) : Nat :=
  let first_day_of_month := ymd2ord year month 1
  first_day_of_month - ((isocalendar first_day_of_month).2.2 - 1)

/-- One iteration of the 42-cell grid loop: out-of-month cells are replaced by
the empty string, in-month cells by the day of month, and the in-month cells'
ISO week numbers are collected into the `weeks_in_month` set. -/
def grid_step (year month : Nat) (acc : PMState × Finset Nat) (day : Nat) :
    PMState × Finset Nat :=
  let date := first_grid_day year month + day
  if monthOf date ≠ month then
    ({ acc.1 with replacements := setRepl acc.1.replacements (grid_key day) "" },
     acc.2)
  else
    ({ acc.1 with replacements := setRepl acc.1.replacements (grid_key day) (toString (domOf date)) },
     insert (isoweekOf date) acc.2)

/-- The replacement-dictionary part of the month-boundary body: set `{MONTH}`,
then run the 42-cell grid loop, collecting the `weeks_in_month` set. -/
def month_fold (year month : Nat) (st : PMState) : PMState × Finset Nat :=
  (List.range 42).foldl (grid_step year month)
    ({ st with replacements := setRepl st.replacements "\x7bMONTH\x7d" (month_name_upper month) },
     (∅ : Finset Nat))

/-- The month-boundary body of the week loop: set `{MONTH}` and the grid
replacements, insert the blank left-hand page unless this is January, and emit
the month summary page from the template chosen by the number of ISO weeks in
the month. -/
def process_month (year month : Nat) (st : PMState) : PMState :=
  let month_string := month_name_upper month
  let fold := month_fold year month st
  let st := fold.1
  let n_weeks_in_month := fold.2.card
  let st := if month ≠ 1 then add_blank_page st else st
  add_page_from_template st
    ("month_summary_" ++ toString n_weeks_in_month ++ "wk.svg")
    (month_string ++ "_start_page.svg")

/-- `f"{year} WEEK {week}"` -/
def week_description (year week : Nat) : String :=
  toString year ++ " WEEK " ++ toString week

/-- The `month_days_text` header of the week day-list page: the seven dates of
the week run Monday–Sunday; one month name if Monday and Sunday share a month,
two month names otherwise. -/
def week_header (year week : Nat) : String :=
  let day1 := fromisocalendar year week 1
  let days_of_week := (List.range 7).map (fun day => day1 + day)
  if monthOf (days_of_week.getD 0 0) = monthOf (days_of_week.getD 6 0) then
    month_name_upper (monthOf (days_of_week.getD 0 0)) ++ " "
      ++ toString (domOf (days_of_week.getD 0 0)) ++ " - "
      ++ toString (domOf (days_of_week.getD 6 0))
  else
    month_name_upper (monthOf (days_of_week.getD 0 0)) ++ " "
      ++ toString (domOf (days_of_week.getD 0 0)) ++ " - "
      ++ month_name_upper (monthOf (days_of_week.getD 6 0)) ++ " "
      ++ toString (domOf (days_of_week.getD 6 0))

/-- The unconditional tail of the week-loop body: emit the week pad page, then
update the day-list replacements and emit the week day-list page. -/
def week_tail (year week : Nat) (st : PMState) : PMState :=
  -- week pad page
  let st := { st with
    replacements := setRepl st.replacements "\x7bWEEK_DESCRIPTION_TEXT\x7d"
      (week_description year week) }
  let st := add_page_from_template st "week_pad.svg"
    ("week_pad_week" ++ toString week ++ ".svg")
  -- week day-list page
  let day1 := fromisocalendar year week 1
  let days_of_week := (List.range 7).map (fun day => day1 + day)
  let st := { st with
    replacements := setRepl st.replacements "\x7bMONTH_DAYS_TEXT\x7d"
      (week_header year week) }
  let st := { st with
    replacements := setRepl st.replacements "\x7bmon_dom\x7d"
      (toString (domOf (days_of_week.getD 0 0))) }
  let st := { st with
    replacements := setRepl st.replacements "\x7btue_dom\x7d"
      (toString (domOf (days_of_week.getD 1 0))) }
  let st := { st with
    replacements := setRepl st.replacements "\x7bwed_dom\x7d"
      (toString (domOf (days_of_week.getD 2 0))) }
  let st := { st with
    replacements := setRepl st.replacements "\x7bthur_dom\x7d"
      (toString (domOf (days_of_week.getD 3 0))) }
  let st := { st with
    replacements := setRepl st.replacements "\x7bfri_dom\x7d"
      (toString (domOf (days_of_week.getD 4 0))) }
  let st := { st with
    replacements := setRepl st.replacements "\x7bsat_dom\x7d"
      (toString (domOf (days_of_week.getD 5 0))) }
  let st := { st with
    replacements := setRepl st.replacements "\x7bsun_dom\x7d"
      (toString (domOf (days_of_week.getD 6 0))) }
  add_page_from_template st "week_daylist.svg"
    ("week_daylist_week" ++ toString week ++ ".svg")

/-- The body of the main week loop of `planner_gen.py` for ISO week `week` of `year`. -/
def process_week (year week : Nat) (st : PMState) : PMState :=
  -- We count the week as in the month in which the middle day (ISO weekday 4) falls.
  let middle_day_of_week := fromisocalendar year week 4
  let month := monthOf middle_day_of_week
  let middle_day_of_previous_week := middle_day_of_week - 7
  let st :=
    if monthOf middle_day_of_week ≠ monthOf middle_day_of_previous_week then
      process_month year month st
    else st
  week_tail year week st

/-- `n_weeks_in_year = datetime.date(year,12,28).isocalendar().week`
(December 28 is always in the last ISO week of the year). -/
def n_weeks_in_year (year : Nat) : Nat := isoweekOf (ymd2ord year 12 28)

/-- The manager state before the week loop: empty replacements, and a leading
blank page unless reordering. -/
def planner_init (reorder : Bool) : PMState :=
  let st : PMState := ⟨emptyRepl, []⟩
  if reorder then st else add_blank_page st

/-- The manager state after the whole week loop `for week in range(1, n_weeks_in_year + 1)`. -/
def planner_state (year : Nat) (reorder : Bool) : PMState :=
  (List.range' 1 (n_weeks_in_year year)).foldl
    (fun st week => process_week year week st) (planner_init reorder)

/-- The ordered page sequence produced by the Calendar Page Planner. -/
def a5_pages (year : Nat) (reorder : Bool) : List (Option A5Page) :=
  (planner_state year reorder).a5_pages

/-- `while len(a5_pages) % 4 != 0: a5_pages.append(None)` — the padding step,
in closed form: append blanks until a multiple of 4. -/
def pad_pages (l : List (Option A5Page)) : List (Option A5Page) :=
  l ++ List.replicate ((4 - l.length % 4) % 4) none

/-- The imposition loop: consume the page list four at a time
(`a5_pages.pop(0)` × 4) and write two A4 sheets `(left, right)` per group, in
order; with `--reorder` the pops are assigned `first_right, second_left,
second_right, first_left`, otherwise `first_left, first_right, second_left,
second_right`. -/
def impose {α : Type} (reorder : Bool) : List α → List (α × α)
  | p0 :: p1 :: p2 :: p3 :: rest =>
    if reorder then (p3, p0) :: (p1, p2) :: impose reorder rest
    else (p0, p1) :: (p2, p3) :: impose reorder rest
  | _ => []

/-- The A4 sheet sequence produced for a year in a given mode. -/
def sheets (year : Nat) (reorder : Bool) : List (Option A5Page × Option A5Page) :=
  impose reorder (pad_pages (a5_pages year reorder))

/-- Reading the sheets back in natural order: each sheet contributes its left
then its right page. -/
def sheet_pages {α : Type} : List (α × α) → List α
  | [] => []
  | s :: rest => s.1 :: s.2 :: sheet_pages rest

/-- The documented non-duplex procedure applied to the emitted sheet sequence:
consecutive sheets pair up as (front, back) of one physical A4 sheet (all
fronts are printed as one batch, the stack is flipped, and the backs are
printed onto the same physical sheets in order).  Cutting a physical sheet
along the centre line yields two A5 leaves; collated reading order is: the
front's right page, overleaf of which is the back's left page, then the back's
right page, overleaf of which is the front's left page. -/
def recollate {α : Type} : List (α × α) → List α
  | a :: b :: rest => a.2 :: b.1 :: b.2 :: a.1 :: recollate rest
  | _ => []

/-- A month-summary page: the template name starts with `month_summary_`. -/
def is_month_summary (p : A5Page) : Bool :=
  "month_summary_".data.isPrefixOf p.template.data

/-- A week-pad page (template `week_pad.svg`). -/
def is_week_pad (p : A5Page) : Bool := p.template == "week_pad.svg"

/-- A week day-list page (template `week_daylist.svg`). -/
def is_week_daylist (p : A5Page) : Bool := p.template == "week_daylist.svg"

/-! ### Derived views used to state the properties -/

/-- The anchor day (`middle_day_of_week`) of ISO week `week`: its Thursday. -/
def anchor (year week : Nat) : Nat := fromisocalendar year week 4

/-- The month a week is counted in: the calendar month of its anchor Thursday. -/
def anchor_month (year week : Nat) : Nat := monthOf (anchor year week)

/-- The month-boundary test of the week loop:
`middle_day_of_week.month != middle_day_of_previous_week.month`. -/
def week_boundary (year week : Nat) : Prop :=
  monthOf (fromisocalendar year week 4) ≠ monthOf (fromisocalendar year week 4 - 7)

instance (year week : Nat) : Decidable (week_boundary year week) := by
  unfold week_boundary; infer_instance

/-- The `{MONTH}` values of the month-summary pages of a page sequence, in order. -/
def summary_months (l : List (Option A5Page)) : List (Option String) :=
  ((l.filterMap id).filter is_month_summary).map (fun p => p.repl "\x7bMONTH\x7d")

/-- The `{WEEK_DESCRIPTION_TEXT}` values of the week-pad pages, in order. -/
def pad_week_descriptions (l : List (Option A5Page)) : List (Option String) :=
  ((l.filterMap id).filter is_week_pad).map
    (fun p => p.repl "\x7bWEEK_DESCRIPTION_TEXT\x7d")

/-- The output names of the week day-list pages, in order. -/
def daylist_outputs (l : List (Option A5Page)) : List String :=
  ((l.filterMap id).filter is_week_daylist).map (fun p => p.output)

/-- Calendar month (1–12, as month-of-year) `m` contains at least one day
belonging to an ISO week of `year`. -/
def month_has_iso_day (year m : Nat) : Prop :=
  ∃ w, 1 ≤ w ∧ w ≤ n_weeks_in_year year ∧
    ∃ i, i < 7 ∧ monthOf (fromisocalendar year w 1 + i) = m

/-- The seven day-of-month replacement keys of the week day-list page, Monday first. -/
def dom_keys : List String :=
  ["\x7bmon_dom\x7d", "\x7btue_dom\x7d", "\x7bwed_dom\x7d", "\x7bthur_dom\x7d",
   "\x7bfri_dom\x7d", "\x7bsat_dom\x7d", "\x7bsun_dom\x7d"]

/-- The set of ISO week numbers of the in-month cells of the 42-cell grid of
`(year, month)` (the `weeks_in_month` set of the script). -/
def grid_weeks (year month : Nat) : Finset Nat :=
  (List.range 42).foldl (fun s day =>
    let date := first_grid_day year month + day
    if monthOf date ≠ month then s else insert (isoweekOf date) s) ∅

/-- What the month-boundary body guarantees about the emitted month summary
page: template chosen by the week count of the month, output name from the
month name, and a snapshot holding the month name, the 42 grid cells, and the
incoming dictionary everywhere else. -/
def summary_facts (year month : Nat) (st : PMState) (ps : A5Page) : Prop :=
  ps.template = "month_summary_" ++ toString ((grid_weeks year month).card) ++ "wk.svg" ∧
  ps.output = month_name_upper month ++ "_start_page.svg" ∧
  ps.repl "\x7bMONTH\x7d" = some (month_name_upper month) ∧
  (∀ d, d < 42 → ps.repl (grid_key d)
    = some (if monthOf (first_grid_day year month + d) ≠ month then ""
            else toString (domOf (first_grid_day year month + d)))) ∧
  (∀ k, (∀ d, d < 42 → grid_key d ≠ k) → k ≠ "\x7bMONTH\x7d" →
    ps.repl k = st.replacements k)

/-- What the week-loop tail guarantees about the week pad page and the week
day-list page it emits: the pad page's snapshot still holds the incoming
day-list values (they are only updated afterwards, before the day-list page),
while the day-list page's snapshot holds the current week's values; the final
dictionary is the day-list page's snapshot. -/
def week_tail_facts (year week : Nat) (st stOut : PMState) (pd dl : A5Page) : Prop :=
  pd.template = "week_pad.svg" ∧
  pd.output = "week_pad_week" ++ toString week ++ ".svg" ∧
  pd.repl "\x7bWEEK_DESCRIPTION_TEXT\x7d" = some (week_description year week) ∧
  pd.repl "\x7bMONTH_DAYS_TEXT\x7d" = st.replacements "\x7bMONTH_DAYS_TEXT\x7d" ∧
  (∀ i, i < 7 → pd.repl (dom_keys.getD i "") = st.replacements (dom_keys.getD i "")) ∧
  pd.repl "\x7bMONTH\x7d" = st.replacements "\x7bMONTH\x7d" ∧
  dl.template = "week_daylist.svg" ∧
  dl.output = "week_daylist_week" ++ toString week ++ ".svg" ∧
  dl.repl "\x7bWEEK_DESCRIPTION_TEXT\x7d" = some (week_description year week) ∧
  dl.repl "\x7bMONTH_DAYS_TEXT\x7d" = some (week_header year week) ∧
  (∀ i, i < 7 → dl.repl (dom_keys.getD i "")
    = some (toString (domOf (fromisocalendar year week 1 + i)))) ∧
  dl.repl "\x7bMONTH\x7d" = st.replacements "\x7bMONTH\x7d" ∧
  stOut.replacements = dl.repl

/-- The manager state after the first `k` iterations of the week loop. -/
def planner_upto (year : Nat) (reorder : Bool) (k : Nat) : PMState :=
  (List.range' 1 k).foldl (fun st week => process_week year week st) (planner_init reorder)

/-- The weeks among `1..k` at which the month-boundary test fires. -/
def boundary_weeks (year k : Nat) : List Nat :=
  (List.range' 1 k).filter (fun w => decide (week_boundary year w))

/-- The `{MONTH_DAYS_TEXT}` values of the week day-list pages, in order. -/
def daylist_headers (l : List (Option A5Page)) : List (Option String) :=
  ((l.filterMap id).filter is_week_daylist).map (fun p => p.repl "\x7bMONTH_DAYS_TEXT\x7d")

/-- The `i`-th day-of-month values of the week day-list pages, in order. -/
def daylist_dom (i : Nat) (l : List (Option A5Page)) : List (Option String) :=
  ((l.filterMap id).filter is_week_daylist).map (fun p => p.repl (dom_keys.getD i ""))

/-- The `{MONTH_DAYS_TEXT}` values snapshotted by the week-pad pages, in order. -/
def pad_headers (l : List (Option A5Page)) : List (Option String) :=
  ((l.filterMap id).filter is_week_pad).map (fun p => p.repl "\x7bMONTH_DAYS_TEXT\x7d")

/-- The `i`-th day-of-month values snapshotted by the week-pad pages, in order. -/
def pad_dom (i : Nat) (l : List (Option A5Page)) : List (Option String) :=
  ((l.filterMap id).filter is_week_pad).map (fun p => p.repl (dom_keys.getD i ""))

/-- The `{MONTH}` values snapshotted by the week-pad pages, in order. -/
def pad_months (l : List (Option A5Page)) : List (Option String) :=
  ((l.filterMap id).filter is_week_pad).map (fun p => p.repl "\x7bMONTH\x7d")

/-- Month-summary pages appear only at 0-based positions of parity `par`. -/
def summaries_at_parity (par : Nat) (l : List (Option A5Page)) : Prop :=
  ∀ i, ∀ h : i < l.length, ∀ p : A5Page, l[i] = some p → is_month_summary p = true →
    i % 2 = par

set_option maxRecDepth 10000
set_option maxHeartbeats 1600000

/-! ### Month-level facts (finite case analyses, settled by `decide`) -/

/-- `_days_in_month` as a function of the leap flag. -/
def dimB (leap : Bool) (m : Nat) : Nat :=
  if m == 2 && leap then 29 else DAYS_IN_MONTH.getD m 0

/-- `_days_before_month` as a function of the leap flag. -/
def dbmB (leap : Bool) (m : Nat) : Nat :=
  DAYS_BEFORE_MONTH.getD m 0 + (if m > 2 && leap then 1 else 0)

theorem days_in_month_eq (y m : Nat) : days_in_month y m = dimB (is_leap y) m := rfl

theorem days_before_month_eq (y m : Nat) : days_before_month y m = dbmB (is_leap y) m := rfl

theorem is_leap_iff (y : Nat) :
    is_leap y = true ↔ (y % 4 = 0 ∧ (¬ y % 100 = 0 ∨ y % 400 = 0)) := by
  simp [is_leap]

theorem dimB_le_31 (leap : Bool) (m : Nat) (hm : m ≤ 12) : dimB leap m ≤ 31 := by
  have H : ∀ (l : Bool), ∀ m : Fin 13, dimB l m.val ≤ 31 := by decide
  exact H leap ⟨m, by omega⟩

theorem one_le_dimB (leap : Bool) (m : Nat) (hm1 : 1 ≤ m) (hm2 : m ≤ 12) :
    1 ≤ dimB leap m := by
  have H : ∀ (l : Bool), ∀ m : Fin 13, 1 ≤ m.val → 1 ≤ dimB l m.val := by decide
  exact H leap ⟨m, by omega⟩ hm1

/-- Within a year (leap flag fixed), `find_month_day` inverts `(m, d) ↦ dbmB m + (d-1)`. -/
theorem find_month_day_of_valid (leap : Bool) (m d : Nat)
    (hm1 : 1 ≤ m) (hm2 : m ≤ 12) (hd1 : 1 ≤ d) (hd2 : d ≤ dimB leap m) :
    find_month_day leap (dbmB leap m + (d - 1)) = (m, d) := by
  have H : ∀ (l : Bool), ∀ m : Fin 13, ∀ d : Fin 32,
      1 ≤ m.val → 1 ≤ d.val → d.val ≤ dimB l m.val →
      find_month_day l (dbmB l m.val + (d.val - 1)) = (m.val, d.val) := by decide
  have hd32 : d < 32 := by have := dimB_le_31 leap m hm2; omega
  exact H leap ⟨m, by omega⟩ ⟨d, hd32⟩ hm1 hd1 hd2

/-- Every day offset within a year is realised by a valid `(month, day)`,
namely the one computed by `find_month_day`. -/
theorem exists_month_day (leap : Bool) (t : Nat) (ht1 : 1 ≤ t)
    (ht2 : t ≤ (if leap then 366 else 365)) :
    1 ≤ (find_month_day leap (t - 1)).1 ∧ (find_month_day leap (t - 1)).1 ≤ 12 ∧
    1 ≤ (find_month_day leap (t - 1)).2 ∧
    (find_month_day leap (t - 1)).2 ≤ dimB leap (find_month_day leap (t - 1)).1 ∧
    dbmB leap (find_month_day leap (t - 1)).1 + (find_month_day leap (t - 1)).2 = t := by
  have H : ∀ (l : Bool), ∀ t : Fin 367, 1 ≤ t.val → t.val ≤ (if l then 366 else 365) →
      1 ≤ (find_month_day l (t.val - 1)).1 ∧ (find_month_day l (t.val - 1)).1 ≤ 12 ∧
      1 ≤ (find_month_day l (t.val - 1)).2 ∧
      (find_month_day l (t.val - 1)).2 ≤ dimB l (find_month_day l (t.val - 1)).1 ∧
      dbmB l (find_month_day l (t.val - 1)).1 + (find_month_day l (t.val - 1)).2 = t.val := by
    decide
  have ht367 : t < 367 := by cases leap <;> simp_all <;> omega
  exact H leap ⟨t, ht367⟩ ht1 ht2

/-- Day offsets stay below 366. -/
theorem dbm_add_le_366 (leap : Bool) (m d : Nat)
    (hm1 : 1 ≤ m) (hm2 : m ≤ 12) (hd1 : 1 ≤ d) (hd2 : d ≤ dimB leap m) :
    dbmB leap m + d ≤ 366 := by
  have H : ∀ (l : Bool), ∀ m : Fin 13, ∀ d : Fin 32,
      1 ≤ m.val → 1 ≤ d.val → d.val ≤ dimB l m.val → dbmB l m.val + d.val ≤ 366 := by decide
  have hd32 : d < 32 := by have := dimB_le_31 leap m hm2; omega
  exact H leap ⟨m, by omega⟩ ⟨d, hd32⟩ hm1 hd1 hd2

/-- In a common year, day offsets stay below 365. -/
theorem dbm_add_le_365 (m d : Nat)
    (hm1 : 1 ≤ m) (hm2 : m ≤ 12) (hd1 : 1 ≤ d) (hd2 : d ≤ dimB false m) :
    dbmB false m + d ≤ 365 := by
  have H : ∀ m : Fin 13, ∀ d : Fin 32,
      1 ≤ m.val → 1 ≤ d.val → d.val ≤ dimB false m.val →
      dbmB false m.val + d.val ≤ 365 := by decide
  have hd32 : d < 32 := by have := dimB_le_31 false m hm2; omega
  exact H ⟨m, by omega⟩ ⟨d, hd32⟩ hm1 hd1 hd2

/-- Day offset 365 (the 366th day of a leap year) is December 31. -/
theorem offset_365_iff (leap : Bool) (m d : Nat)
    (hm1 : 1 ≤ m) (hm2 : m ≤ 12) (hd1 : 1 ≤ d) (hd2 : d ≤ dimB leap m) :
    dbmB leap m + (d - 1) = 365 ↔ (leap = true ∧ m = 12 ∧ d = 31) := by
  have H : ∀ (l : Bool), ∀ m : Fin 13, ∀ d : Fin 32,
      1 ≤ m.val → 1 ≤ d.val → d.val ≤ dimB l m.val →
      (dbmB l m.val + (d.val - 1) = 365 ↔ (l = true ∧ m.val = 12 ∧ d.val = 31)) := by decide
  have hd32 : d < 32 := by have := dimB_le_31 leap m hm2; omega
  exact H leap ⟨m, by omega⟩ ⟨d, hd32⟩ hm1 hd1 hd2

/-- Months are separated by `dbmB`: later months start after earlier months end. -/
theorem dbm_mono (leap : Bool) (m m' : Nat)
    (hm1 : 1 ≤ m) (hlt : m < m') (hm2 : m' ≤ 12) :
    dbmB leap m + dimB leap m ≤ dbmB leap m' := by
  have H : ∀ (l : Bool), ∀ m : Fin 13, ∀ m' : Fin 13, 1 ≤ m.val → m.val < m'.val →
      dbmB l m.val + dimB l m.val ≤ dbmB l m'.val := by decide
  exact H leap ⟨m, by omega⟩ ⟨m', by omega⟩ hm1 hlt

/-! ### Year-level arithmetic of `_ord2ymd` -/

/-- `_days_before_year` in mixed-radix (400/100/4-year cycle) form. -/
theorem days_before_year_radix (y : Nat) :
    days_before_year y =
      146097 * ((y - 1) / 400) + 36524 * ((y - 1) % 400 / 100)
        + 1461 * ((y - 1) % 400 % 100 / 4) + 365 * ((y - 1) % 400 % 100 % 4) := by
  simp only [days_before_year]
  omega

theorem is_leap_radix (y : Nat) (hy : 1 ≤ y) :
    is_leap y = true ↔
      ((y - 1) % 400 % 100 % 4 = 3 ∧
        (¬ (y - 1) % 400 % 100 / 4 = 24 ∨ (y - 1) % 400 / 100 = 3)) := by
  rw [is_leap_iff]; omega

/-- The division chain of `_ord2ymd` on `146097·A + 36524·B + 1461·C + 365·D + j`:
ordinary case (day offset `j ≤ 364`). -/
theorem chain_normal (A B C D j : Nat) (hB : B ≤ 3) (hC : C ≤ 24) (hD : D ≤ 3)
    (hj : j ≤ 364) :
    (146097*A + 36524*B + 1461*C + 365*D + j) / 146097 = A ∧
    (146097*A + 36524*B + 1461*C + 365*D + j) % 146097 / 36524 = B ∧
    (146097*A + 36524*B + 1461*C + 365*D + j) % 146097 % 36524 / 1461 = C ∧
    (146097*A + 36524*B + 1461*C + 365*D + j) % 146097 % 36524 % 1461 / 365 = D ∧
    (146097*A + 36524*B + 1461*C + 365*D + j) % 146097 % 36524 % 1461 % 365 = j := by
  have h1 : (146097*A + 36524*B + 1461*C + 365*D + j) / 146097 = A ∧
      (146097*A + 36524*B + 1461*C + 365*D + j) % 146097 = 36524*B + 1461*C + 365*D + j := by
    omega
  have h2 : (36524*B + 1461*C + 365*D + j) / 36524 = B ∧
      (36524*B + 1461*C + 365*D + j) % 36524 = 1461*C + 365*D + j := by omega
  have h3 : (1461*C + 365*D + j) / 1461 = C ∧
      (1461*C + 365*D + j) % 1461 = 365*D + j := by omega
  have h4 : (365*D + j) / 365 = D ∧ (365*D + j) % 365 = j := by omega
  refine ⟨h1.1, ?_, ?_, ?_, ?_⟩
  · rw [h1.2]; exact h2.1
  · rw [h1.2, h2.2]; exact h3.1
  · rw [h1.2, h2.2, h3.2]; exact h4.1
  · rw [h1.2, h2.2, h3.2]; exact h4.2

/-- The division chain of `_ord2ymd`: December 31 of a leap year (day offset 365),
the case in which `n1 == 4` or `n100 == 4` fires and the computed year overshoots by one. -/
theorem chain_special (A B C j : Nat) (hB : B ≤ 3) (hC : C ≤ 24)
    (hleap : ¬ C = 24 ∨ B = 3) (hj : j = 365) :
    ((146097*A + 36524*B + 1461*C + 365*3 + j) % 146097 % 36524 % 1461 / 365 = 4 ∨
      (146097*A + 36524*B + 1461*C + 365*3 + j) % 146097 / 36524 = 4) ∧
    (146097*A + 36524*B + 1461*C + 365*3 + j) / 146097 * 400 + 1
      + (146097*A + 36524*B + 1461*C + 365*3 + j) % 146097 / 36524 * 100
      + (146097*A + 36524*B + 1461*C + 365*3 + j) % 146097 % 36524 / 1461 * 4
      + (146097*A + 36524*B + 1461*C + 365*3 + j) % 146097 % 36524 % 1461 / 365
      = 400*A + 100*B + 4*C + 3 + 2 := by
  subst hj
  by_cases hC' : C = 24
  · -- December 31 of a year divisible by 400: the `n100 == 4` cascade
    have hB' : B = 3 := by tauto
    subst hC'; subst hB'
    have h1 : (146097*A + 36524*3 + 1461*24 + 365*3 + 365) / 146097 = A ∧
        (146097*A + 36524*3 + 1461*24 + 365*3 + 365) % 146097 = 146096 := by omega
    refine ⟨Or.inr ?_, ?_⟩
    · rw [h1.2]
    · rw [h1.1, h1.2]; omega
  · -- December 31 of an ordinary leap year: the `n1 == 4` cascade
    have hC'' : C ≤ 23 := by omega
    have h1 : (146097*A + 36524*B + 1461*C + 365*3 + 365) / 146097 = A ∧
        (146097*A + 36524*B + 1461*C + 365*3 + 365) % 146097
          = 36524*B + 1461*C + 1460 := by omega
    have h2 : (36524*B + 1461*C + 1460) / 36524 = B ∧
        (36524*B + 1461*C + 1460) % 36524 = 1461*C + 1460 := by omega
    have h3 : (1461*C + 1460) / 1461 = C ∧ (1461*C + 1460) % 1461 = 1460 := by omega
    refine ⟨Or.inl ?_, ?_⟩
    · rw [h1.2, h2.2, h3.2]
    · rw [h1.1, h1.2, h2.1, h2.2, h3.1, h3.2]; omega

/-- `_ord2ymd` with its let-chain written out (definitional). -/
theorem ord2ymd_eval (N : Nat) :
    ord2ymd N =
      if (N-1) % 146097 % 36524 % 1461 / 365 == 4 || (N-1) % 146097 / 36524 == 4 then
        ((N-1)/146097 * 400 + 1 + (N-1)%146097/36524 * 100 + (N-1)%146097%36524/1461 * 4
           + (N-1)%146097%36524%1461/365 - 1, 12, 31)
      else
        ((N-1)/146097 * 400 + 1 + (N-1)%146097/36524 * 100 + (N-1)%146097%36524/1461 * 4
           + (N-1)%146097%36524%1461/365,
         find_month_day
           ((N-1)%146097%36524%1461/365 == 3
             && ((N-1)%146097%36524/1461 != 24 || (N-1)%146097/36524 == 3))
           ((N-1)%146097%36524%1461%365)) := rfl

/-- Decoding an ordinal that lies inside year `y`: `_ord2ymd` returns year `y`
and the month/day computed by `find_month_day` from the day offset. -/
theorem ord2ymd_in_year (y t : Nat) (hy : 1 ≤ y) (ht1 : 1 ≤ t) (ht2 : t ≤ year_length y) :
    ord2ymd (days_before_year y + t) = (y, find_month_day (is_leap y) (t - 1)) := by
  have hr := days_before_year_radix y
  have hBb : (y-1) % 400 / 100 ≤ 3 := by omega
  have hCb : (y-1) % 400 % 100 / 4 ≤ 24 := by omega
  have hDb : (y-1) % 400 % 100 % 4 ≤ 3 := by omega
  have hyrep : y = 400 * ((y-1)/400) + 100 * ((y-1)%400/100) + 4 * ((y-1)%400%100/4)
      + ((y-1)%400%100%4) + 1 := by omega
  have hN : days_before_year y + t - 1
      = 146097*((y-1)/400) + 36524*((y-1)%400/100) + 1461*((y-1)%400%100/4)
        + 365*((y-1)%400%100%4) + (t - 1) := by omega
  rw [ord2ymd_eval, hN]
  by_cases ht365 : t ≤ 365
  · -- ordinary day: the division chain recovers year and day offset exactly
    obtain ⟨hc1, hc2, hc3, hc4, hc5⟩ :=
      chain_normal ((y-1)/400) ((y-1)%400/100) ((y-1)%400%100/4) ((y-1)%400%100%4) (t-1)
        hBb hCb hDb (by omega)
    rw [hc1, hc2, hc3, hc4, hc5]
    rw [if_neg (by simp only [Bool.or_eq_true, beq_iff_eq]; omega)]
    have hbool : ((y-1)%400%100%4 == 3
        && ((y-1)%400%100/4 != 24 || (y-1)%400/100 == 3)) = is_leap y := by
      rw [Bool.eq_iff_iff]
      rw [is_leap_radix y hy]
      simp only [Bool.and_eq_true, beq_iff_eq, Bool.or_eq_true, bne_iff_ne, ne_eq]
    refine Prod.ext ?_ ?_
    · show _ = y
      clear hr hN
      omega
    · show find_month_day _ (t-1) = find_month_day (is_leap y) (t-1)
      rw [hbool]
  · -- t = 366: December 31 of a leap year, the overshoot branch of `_ord2ymd`
    have hLtrue : is_leap y = true := by
      unfold year_length at ht2
      rcases hL : is_leap y with _ | _
      · rw [hL] at ht2; simp at ht2; omega
      · rfl
    have ht366 : t = 366 := by
      unfold year_length at ht2; rw [hLtrue] at ht2; simp at ht2; omega
    have hD3 : (y-1)%400%100%4 = 3 ∧ (¬ (y-1)%400%100/4 = 24 ∨ (y-1)%400/100 = 3) :=
      (is_leap_radix y hy).mp hLtrue
    have ht1' : t - 1 = 365 := by omega
    rw [ht1', hD3.1]
    obtain ⟨hs1, hs2⟩ :=
      chain_special ((y-1)/400) ((y-1)%400/100) ((y-1)%400%100/4) 365 hBb hCb hD3.2 rfl
    rw [if_pos (by simp only [Bool.or_eq_true, beq_iff_eq]; omega)]
    refine Prod.ext ?_ ?_
    · show _ - 1 = y
      rw [hs2]
      clear hr hN hs1
      omega
    · show ((12 : Nat), (31 : Nat)) = find_month_day (is_leap y) 365
      rw [hLtrue]
      decide

theorem ymd2ord_eq_dby_add (y m d : Nat) :
    ymd2ord y m d = days_before_year y + (dbmB (is_leap y) m + d) := by
  rw [ymd2ord, days_before_month_eq]
  omega

/-- Round trip: `_ord2ymd` inverts `_ymd2ord` on valid dates. -/
theorem ord2ymd_ymd2ord (y m d : Nat) (h : ValidDate y m d) :
    ord2ymd (ymd2ord y m d) = (y, m, d) := by
  obtain ⟨hy, hm1, hm2, hd1, hd2⟩ := h
  rw [days_in_month_eq] at hd2
  have ht2 : dbmB (is_leap y) m + d ≤ year_length y := by
    unfold year_length
    rcases hL : is_leap y with _ | _
    · rw [hL] at hd2
      simpa using dbm_add_le_365 m d hm1 hm2 hd1 hd2
    · rw [hL] at hd2
      simpa using dbm_add_le_366 true m d hm1 hm2 hd1 hd2
  rw [ymd2ord_eq_dby_add]
  rw [ord2ymd_in_year y (dbmB (is_leap y) m + d) hy (by omega) ht2]
  have hsub : dbmB (is_leap y) m + d - 1 = dbmB (is_leap y) m + (d - 1) := by omega
  rw [hsub, find_month_day_of_valid (is_leap y) m d hm1 hm2 hd1 hd2]

theorem yearOf_ymd2ord (y m d : Nat) (h : ValidDate y m d) : yearOf (ymd2ord y m d) = y := by
  unfold yearOf; rw [ord2ymd_ymd2ord y m d h]

theorem monthOf_ymd2ord (y m d : Nat) (h : ValidDate y m d) : monthOf (ymd2ord y m d) = m := by
  unfold monthOf; rw [ord2ymd_ymd2ord y m d h]

theorem domOf_ymd2ord (y m d : Nat) (h : ValidDate y m d) : domOf (ymd2ord y m d) = d := by
  unfold domOf; rw [ord2ymd_ymd2ord y m d h]

/-- Every ordinal inside year `y`'s range decodes to a valid date of year `y`
whose in-year day offset is the given one. -/
theorem ord2ymd_range (y t : Nat) (hy : 1 ≤ y) (ht1 : 1 ≤ t) (ht2 : t ≤ year_length y) :
    yearOf (days_before_year y + t) = y ∧
    ValidDate y (monthOf (days_before_year y + t)) (domOf (days_before_year y + t)) ∧
    dbmB (is_leap y) (monthOf (days_before_year y + t)) + domOf (days_before_year y + t) = t ∧
    ymd2ord y (monthOf (days_before_year y + t)) (domOf (days_before_year y + t))
      = days_before_year y + t := by
  have hlen : year_length y = (if is_leap y then 366 else 365) := by
    unfold year_length; rcases is_leap y <;> simp
  have hex := exists_month_day (is_leap y) t ht1 (by omega)
  have hdec := ord2ymd_in_year y t hy ht1 ht2
  have hm : monthOf (days_before_year y + t) = (find_month_day (is_leap y) (t - 1)).1 := by
    unfold monthOf; rw [hdec]
  have hd : domOf (days_before_year y + t) = (find_month_day (is_leap y) (t - 1)).2 := by
    unfold domOf; rw [hdec]
  have hyr : yearOf (days_before_year y + t) = y := by
    unfold yearOf; rw [hdec]
  obtain ⟨he1, he2, he3, he4, he5⟩ := hex
  have hvalid : ValidDate y (monthOf (days_before_year y + t)) (domOf (days_before_year y + t)) := by
    rw [hm, hd]
    exact ⟨hy, he1, he2, he3, by rw [days_in_month_eq]; exact he4⟩
  refine ⟨hyr, hvalid, ?_, ?_⟩
  · rw [hm, hd]; exact he5
  · rw [ymd2ord_eq_dby_add]
    rw [hm, hd]
    rw [he5]

/-- Successive years tile the ordinals: `days_before_year` advances by the year length. -/
theorem dby_succ (y : Nat) (hy : 1 ≤ y) :
    days_before_year (y + 1) = days_before_year y + year_length y := by
  have hiff := is_leap_iff y
  simp only [days_before_year, year_length]
  rcases hL : is_leap y with _ | _ <;> rw [hL] at hiff <;> simp at hiff ⊢ <;> omega

theorem year_length_bounds (y : Nat) : 365 ≤ year_length y ∧ year_length y ≤ 366 := by
  unfold year_length; rcases is_leap y <;> simp

/-! ### The ISO week layer -/

/-- `_isoweek1monday y` is a Monday (ordinals `≡ 1 mod 7`) within 3 days of January 1. -/
theorem isoweek1monday_spec (y : Nat) (_hy : 1 ≤ y) :
    isoweek1monday y % 7 = 1 ∧
    days_before_year y + 1 ≤ isoweek1monday y + 3 ∧
    isoweek1monday y ≤ days_before_year y + 4 := by
  have hf : ymd2ord y 1 1 = days_before_year y + 1 := by
    rw [ymd2ord_eq_dby_add]
    simp [dbmB, DAYS_BEFORE_MONTH]
  simp only [isoweek1monday]
  rw [hf]
  split <;> omega

/-- Consecutive ISO week-1 Mondays are 52 or 53 weeks apart. -/
theorem w1m_succ_diff (y : Nat) (hy : 1 ≤ y) :
    isoweek1monday (y+1) = isoweek1monday y + 364 ∨
    isoweek1monday (y+1) = isoweek1monday y + 371 := by
  have s1 := isoweek1monday_spec y hy
  have s2 := isoweek1monday_spec (y+1) (by omega)
  have hd := dby_succ y hy
  have hl := year_length_bounds y
  omega

/-- The central characterisation of `date.isocalendar()`: for an ordinal lying in the
ISO-week interval of year `y` (between the week-1 Mondays of `y` and `y+1`), it returns
ISO year `y`, and week/weekday obtained by div/mod 7 from the week-1 Monday of `y`. -/
theorem isocalendar_spec (y o : Nat) (hy : 1 ≤ y)
    (h1 : isoweek1monday y ≤ o) (h2 : o < isoweek1monday (y + 1)) :
    isocalendar o = (y, (o - isoweek1monday y) / 7 + 1, (o - isoweek1monday y) % 7 + 1) := by
  have s1 := isoweek1monday_spec y hy
  have s2 := isoweek1monday_spec (y+1) (by omega)
  have hdy := dby_succ y hy
  have hlen := year_length_bounds y
  by_cases c1 : o ≤ days_before_year y
  · -- o is one of the last days of civil year y-1 (Dec 29-31): the `52 ≤ week` promotion fires
    have hy2 : 2 ≤ y := by
      by_contra hy1
      have hyeq : y = 1 := by omega
      subst hyeq
      have h0 : days_before_year 1 = 0 := by decide
      omega
    have hyy : 1 ≤ y - 1 := by omega
    have s0 := isoweek1monday_spec (y-1) hyy
    have hdy0 := dby_succ (y-1) hyy
    have hlen0 := year_length_bounds (y-1)
    have hdiff0 := w1m_succ_diff (y-1) hyy
    have hy11 : y - 1 + 1 = y := by omega
    rw [hy11] at hdy0 hdiff0
    have ht1 : 1 ≤ o - days_before_year (y-1) := by omega
    have ht2 : o - days_before_year (y-1) ≤ year_length (y-1) := by omega
    have hrange := ord2ymd_range (y-1) (o - days_before_year (y-1)) hyy ht1 ht2
    have hsum : days_before_year (y-1) + (o - days_before_year (y-1)) = o := by omega
    rw [hsum] at hrange
    have hyearOf : yearOf o = y - 1 := hrange.1
    simp only [isocalendar]
    rw [hyearOf]
    rw [if_neg (by omega)]
    rw [hy11]
    rw [if_pos (by constructor <;> omega)]
    simp only [Prod.mk.injEq]
    refine ⟨trivial, ?_, ?_⟩ <;> omega
  · by_cases c2 : o ≤ days_before_year y + year_length y
    · -- o lies in civil year y
      have hrange := ord2ymd_range y (o - days_before_year y) hy (by omega) (by omega)
      have hsum : days_before_year y + (o - days_before_year y) = o := by omega
      rw [hsum] at hrange
      have hyearOf : yearOf o = y := hrange.1
      simp only [isocalendar]
      rw [hyearOf]
      rw [if_neg (by omega)]
      rw [if_neg (by rintro ⟨-, hb⟩; omega)]
    · -- o lies in the first days of civil year y+1 (Jan 1-3), still in the last ISO week of y
      have hlen1 := year_length_bounds (y+1)
      have hdy1 := dby_succ (y+1) (by omega)
      have hrange := ord2ymd_range (y+1) (o - days_before_year (y+1)) (by omega)
        (by omega) (by omega)
      have hsum : days_before_year (y+1) + (o - days_before_year (y+1)) = o := by omega
      rw [hsum] at hrange
      have hyearOf : yearOf o = y + 1 := hrange.1
      simp only [isocalendar]
      rw [hyearOf]
      rw [if_pos (by omega)]
      simp only [Nat.add_sub_cancel]

/-! ### Imposition and padding -/

theorem impose_nil {α : Type} (r : Bool) : impose r ([] : List α) = [] := rfl

theorem impose_cons4 {α : Type} (r : Bool) (p0 p1 p2 p3 : α) (rest : List α) :
    impose r (p0 :: p1 :: p2 :: p3 :: rest)
      = (if r then [(p3, p0), (p1, p2)] else [(p0, p1), (p2, p3)]) ++ impose r rest := by
  cases r <;> simp [impose]

/-- `impose` distributes over append at 4-aligned cut points. -/
theorem impose_append {α : Type} (r : Bool) :
    ∀ (l1 l2 : List α), 4 ∣ l1.length →
      impose r (l1 ++ l2) = impose r l1 ++ impose r l2
  | [], l2, _ => by simp [impose_nil]
  | [a], l2, h => by simp at h
  | [a, b], l2, h => by simp at h; omega
  | [a, b, c], l2, h => by simp at h; omega
  | a :: b :: c :: d :: rest, l2, h => by
    have h' : 4 ∣ rest.length := by
      simp [List.length_cons] at h
      omega
    simp only [List.cons_append, impose_cons4]
    rw [impose_append r rest l2 h']
    simp

theorem sheet_pages_append {α : Type} (s1 s2 : List (α × α)) :
    sheet_pages (s1 ++ s2) = sheet_pages s1 ++ sheet_pages s2 := by
  induction s1 with
  | nil => rfl
  | cons s rest ih => simp [sheet_pages, ih]

/-- Natural-order round trip, 4 pages at a time. -/
theorem sheet_pages_impose :
    ∀ {α : Type} (l : List α), 4 ∣ l.length → sheet_pages (impose false l) = l
  | _, [], _ => rfl
  | _, [a], h => by simp at h
  | _, [a, b], h => by simp at h; omega
  | _, [a, b, c], h => by simp at h; omega
  | _, a :: b :: c :: d :: rest, h => by
    have h' : 4 ∣ rest.length := by
      simp [List.length_cons] at h
      omega
    rw [impose_cons4]
    simp only [if_neg Bool.false_ne_true]
    rw [sheet_pages_append]
    rw [sheet_pages_impose rest h']
    rfl

/-- Reorder-mode round trip, 4 pages at a time. -/
theorem recollate_impose :
    ∀ {α : Type} (l : List α), 4 ∣ l.length → recollate (impose true l) = l
  | _, [], _ => rfl
  | _, [a], h => by simp at h
  | _, [a, b], h => by simp at h; omega
  | _, [a, b, c], h => by simp at h; omega
  | _, a :: b :: c :: d :: rest, h => by
    have h' : 4 ∣ rest.length := by
      simp [List.length_cons] at h
      omega
    rw [impose_cons4]
    simp only [if_pos rfl]
    show recollate ((d, a) :: (b, c) :: impose true rest) = _
    rw [recollate]
    rw [recollate_impose rest h']

/-- C2: the imposition engine maps each aligned group of four consecutive page
slots `[p0, p1, p2, p3]` of the padded sequence to exactly two sheets, sheet A
before sheet B: natural mode `A = (p0, p1)`, `B = (p2, p3)`; reorder mode
`A = (p3, p0)`, `B = (p1, p2)`. -/
theorem claim_C2 {α : Type} (reorder : Bool) (pre suf : List α) (p0 p1 p2 p3 : α)
    (hpre : 4 ∣ pre.length) :
    impose reorder (pre ++ [p0, p1, p2, p3] ++ suf)
      = impose reorder pre
        ++ (if reorder then [(p3, p0), (p1, p2)] else [(p0, p1), (p2, p3)])
        ++ impose reorder suf := by
  rw [List.append_assoc, impose_append reorder pre _ hpre]
  simp only [List.cons_append, List.nil_append]
  rw [impose_cons4]
  simp

/-- Witness for C2 at a concrete input. -/
theorem claim_C2_witness :
    (4 ∣ ([1, 2, 3, 4] : List Nat).length) ∧
    impose true (([1, 2, 3, 4] : List Nat) ++ [5, 6, 7, 8] ++ [])
      = impose true ([1, 2, 3, 4] : List Nat)
        ++ (if true then [(8, 5), (6, 7)] else [(5, 6), (7, 8)])
        ++ impose true ([] : List Nat) :=
  ⟨by decide, claim_C2 true [1, 2, 3, 4] [] 5 6 7 8 (by decide)⟩

/-- C3: imposition round trip.  In natural mode, concatenating each emitted
sheet's (left, right) pair in emission order reproduces the padded sequence;
in reorder mode, the documented flip-and-recollate procedure (`recollate`)
reproduces it. -/
theorem claim_C3 {α : Type} (l : List α) (h : 4 ∣ l.length) :
    sheet_pages (impose false l) = l ∧ recollate (impose true l) = l :=
  ⟨sheet_pages_impose l h, recollate_impose l h⟩

/-- Witness for C3 at a concrete input. -/
theorem claim_C3_witness :
    (4 ∣ ([10, 11, 12, 13, 14, 15, 16, 17] : List Nat).length) ∧
    (sheet_pages (impose false ([10, 11, 12, 13, 14, 15, 16, 17] : List Nat))
        = [10, 11, 12, 13, 14, 15, 16, 17] ∧
      recollate (impose true ([10, 11, 12, 13, 14, 15, 16, 17] : List Nat))
        = [10, 11, 12, 13, 14, 15, 16, 17]) :=
  ⟨by decide, claim_C3 [10, 11, 12, 13, 14, 15, 16, 17] (by decide)⟩

/-- C9: after the padding step, the page sequence entering imposition has
length divisible by 4; padding only appends blanks at the end (no non-blank
page is added, removed or reordered). -/
theorem claim_C9 (year : Nat) (reorder : Bool) :
    (pad_pages (a5_pages year reorder)).length % 4 = 0 ∧
    (pad_pages (a5_pages year reorder)).filterMap id
      = (a5_pages year reorder).filterMap id ∧
    ∃ k, pad_pages (a5_pages year reorder) = a5_pages year reorder ++ List.replicate k none := by
  refine ⟨?_, ?_, ?_⟩
  · simp only [pad_pages, List.length_append, List.length_replicate]
    omega
  · simp only [pad_pages, List.filterMap_append]
    have : (List.replicate ((4 - (a5_pages year reorder).length % 4) % 4)
        (none : Option A5Page)).filterMap id = [] := by
      simp [List.filterMap_replicate]
    rw [this, List.append_nil]
  · exact ⟨_, rfl⟩

/-! ### The replacement dictionary and the grid fold -/

theorem setRepl_same (r : ReplMap) (k v : String) : setRepl r k v k = some v := by
  simp [setRepl]

theorem setRepl_other (r : ReplMap) (k v k' : String) (h : k' ≠ k) :
    setRepl r k v k' = r k' := by
  simp [setRepl, h]

theorem grid_key_inj :
    ∀ a : Fin 42, ∀ b : Fin 42, a.val ≠ b.val → grid_key a.val ≠ grid_key b.val := by
  decide

theorem grid_key_ne_special :
    ∀ d : Fin 42,
      grid_key d.val ≠ "\x7bMONTH\x7d" ∧
      grid_key d.val ≠ "\x7bWEEK_DESCRIPTION_TEXT\x7d" ∧
      grid_key d.val ≠ "\x7bMONTH_DAYS_TEXT\x7d" ∧
      grid_key d.val ≠ "\x7bmon_dom\x7d" ∧
      grid_key d.val ≠ "\x7btue_dom\x7d" ∧
      grid_key d.val ≠ "\x7bwed_dom\x7d" ∧
      grid_key d.val ≠ "\x7bthur_dom\x7d" ∧
      grid_key d.val ≠ "\x7bfri_dom\x7d" ∧
      grid_key d.val ≠ "\x7bsat_dom\x7d" ∧
      grid_key d.val ≠ "\x7bsun_dom\x7d" := by
  decide

/-- The grid fold does not touch the page list. -/
theorem grid_fold_pages (y m : Nat) :
    ∀ (l : List Nat) (st : PMState) (s : Finset Nat),
      ((l.foldl (grid_step y m) (st, s)).1.a5_pages) = st.a5_pages
  | [], st, s => rfl
  | x :: xs, st, s => by
    simp only [List.foldl_cons]
    have hstep : (grid_step y m (st, s) x).1.a5_pages = st.a5_pages := by
      unfold grid_step
      dsimp only
      split <;> rfl
    calc (xs.foldl (grid_step y m) (grid_step y m (st, s) x)).1.a5_pages
        = (grid_step y m (st, s) x).1.a5_pages :=
          grid_fold_pages y m xs (grid_step y m (st, s) x).1 (grid_step y m (st, s) x).2
      _ = st.a5_pages := hstep

/-- The second component of the grid fold is the `weeks_in_month` fold. -/
theorem grid_fold_weeks (y m : Nat) :
    ∀ (l : List Nat) (st : PMState) (s : Finset Nat),
      (l.foldl (grid_step y m) (st, s)).2
        = l.foldl (fun s day =>
            let date := first_grid_day y m + day
            if monthOf date ≠ m then s else insert (isoweekOf date) s) s
  | [], st, s => rfl
  | x :: xs, st, s => by
    simp only [List.foldl_cons]
    have h2 : (grid_step y m (st, s) x).2
        = (if monthOf (first_grid_day y m + x) ≠ m then s
           else insert (isoweekOf (first_grid_day y m + x)) s) := by
      unfold grid_step
      dsimp only
      split <;> simp_all
    calc (xs.foldl (grid_step y m) (grid_step y m (st, s) x)).2
        = xs.foldl _ (grid_step y m (st, s) x).2 :=
          grid_fold_weeks y m xs (grid_step y m (st, s) x).1 (grid_step y m (st, s) x).2
      _ = _ := by rw [h2]

/-- After folding the first `n ≤ 42` grid cells, cell keys already written hold
their cell values. -/
theorem grid_fold_repl_hit (y m : Nat) (st : PMState) (s : Finset Nat) :
    ∀ n, n ≤ 42 → ∀ d, d < n →
      (((List.range n).foldl (grid_step y m) (st, s)).1.replacements) (grid_key d)
        = some (if monthOf (first_grid_day y m + d) ≠ m then ""
                else toString (domOf (first_grid_day y m + d))) := by
  intro n
  induction n with
  | zero => omega
  | succ k ih =>
    intro hn d hd
    rw [List.range_succ, List.foldl_append]
    simp only [List.foldl_cons, List.foldl_nil]
    set mid := (List.range k).foldl (grid_step y m) (st, s) with hmid
    by_cases hdk : d = k
    · subst hdk
      unfold grid_step
      dsimp only
      by_cases hm : monthOf (first_grid_day y m + d) ≠ m
      · rw [if_pos hm, if_pos hm]
        exact setRepl_same _ _ _
      · rw [if_neg hm, if_neg hm]
        exact setRepl_same _ _ _
    · have hne : grid_key d ≠ grid_key k :=
        grid_key_inj ⟨d, by omega⟩ ⟨k, by omega⟩ hdk
      have hpres : (grid_step y m mid k).1.replacements (grid_key d)
          = mid.1.replacements (grid_key d) := by
        unfold grid_step
        dsimp only
        split <;> exact setRepl_other _ _ _ _ hne
      rw [hpres]
      exact ih (by omega) d (by omega)

/-- The grid fold leaves all non-cell keys unchanged. -/
theorem grid_fold_repl_miss (y m : Nat) (st : PMState) (s : Finset Nat) (k : String)
    (hk : ∀ d, d < 42 → grid_key d ≠ k) :
    ∀ n, n ≤ 42 →
      (((List.range n).foldl (grid_step y m) (st, s)).1.replacements) k
        = st.replacements k := by
  intro n
  induction n with
  | zero => intro _; rfl
  | succ j ih =>
    intro hn
    rw [List.range_succ, List.foldl_append]
    simp only [List.foldl_cons, List.foldl_nil]
    set mid := (List.range j).foldl (grid_step y m) (st, s) with hmid
    have hne : k ≠ grid_key j := fun h => hk j (by omega) h.symm
    have hpres : (grid_step y m mid j).1.replacements k = mid.1.replacements k := by
      unfold grid_step
      dsimp only
      split <;> exact setRepl_other _ _ _ _ hne
    rw [hpres]
    exact ih (by omega)

/-- Shape of the month-boundary body: an optional blank (unless January),
then the month summary page, whose replacement snapshot holds the month name
and the 42 freshly-written grid cells and agrees with the incoming dictionary
elsewhere. -/
theorem process_month_shape (y m : Nat) (st : PMState) :
    ∃ ps : A5Page,
      (process_month y m st).a5_pages
        = st.a5_pages ++ (if m ≠ 1 then [none] else []) ++ [some ps] ∧
      (process_month y m st).replacements = ps.repl ∧
      ps.template = "month_summary_" ++ toString ((grid_weeks y m).card) ++ "wk.svg" ∧
      ps.output = month_name_upper m ++ "_start_page.svg" ∧
      ps.repl "\x7bMONTH\x7d" = some (month_name_upper m) ∧
      (∀ d, d < 42 → ps.repl (grid_key d)
        = some (if monthOf (first_grid_day y m + d) ≠ m then ""
                else toString (domOf (first_grid_day y m + d)))) ∧
      (∀ k, (∀ d, d < 42 → grid_key d ≠ k) → k ≠ "\x7bMONTH\x7d" →
        ps.repl k = st.replacements k) := by
  have hpages : (month_fold y m st).1.a5_pages = st.a5_pages :=
    grid_fold_pages y m _ _ _
  have hweeks : (month_fold y m st).2 = grid_weeks y m := by
    unfold month_fold grid_weeks
    rw [grid_fold_weeks]
  have hmiss : ∀ k, (∀ d, d < 42 → grid_key d ≠ k) →
      (month_fold y m st).1.replacements k
        = setRepl st.replacements "\x7bMONTH\x7d" (month_name_upper m) k := by
    intro k hk
    exact grid_fold_repl_miss y m _ ∅ k hk 42 le_rfl
  have hhit : ∀ d, d < 42 → (month_fold y m st).1.replacements (grid_key d)
      = some (if monthOf (first_grid_day y m + d) ≠ m then ""
              else toString (domOf (first_grid_day y m + d))) := by
    intro d hd
    exact grid_fold_repl_hit y m _ ∅ 42 le_rfl d hd
  refine ⟨⟨"month_summary_" ++ toString (month_fold y m st).2.card ++ "wk.svg",
          month_name_upper m ++ "_start_page.svg",
          ((if m ≠ 1 then add_blank_page (month_fold y m st).1
            else (month_fold y m st).1).a5_pages).length + 1,
          (month_fold y m st).1.replacements⟩, ?_, ?_, ?_, ?_, ?_, ?_, ?_⟩
  · -- page list shape
    show (add_page_from_template _ _ _).a5_pages = _
    rw [add_page_from_template]
    by_cases hm : m ≠ 1
    · rw [if_pos hm, if_pos hm]
      simp [add_blank_page, hpages]
    · rw [if_neg hm, if_neg hm]
      simp [hpages]
  · -- final replacements = the snapshot
    show (add_page_from_template _ _ _).replacements = _
    rw [add_page_from_template]
    by_cases hm : m ≠ 1
    · rw [if_pos hm]; rfl
    · rw [if_neg hm]
  · -- template name records the number of weeks in the month
    rw [hweeks]
  · rfl
  · -- `{MONTH}` survives the grid fold
    show (month_fold y m st).1.replacements _ = _
    rw [hmiss _ (fun d hd => (grid_key_ne_special ⟨d, hd⟩).1)]
    exact setRepl_same _ _ _
  · -- grid cells hold their values
    exact hhit
  · -- all other keys untouched
    intro k hk hkM
    show (month_fold y m st).1.replacements _ = _
    rw [hmiss k hk]
    exact setRepl_other _ _ _ _ hkM

theorem range7_eq : List.range 7 = [0, 1, 2, 3, 4, 5, 6] := rfl

/-- Shape of the week-loop tail: it appends exactly the week pad page and the
week day-list page, with the snapshots described by `week_tail_facts`. -/
theorem week_tail_shape (y w : Nat) (st : PMState) :
    ∃ pd dl : A5Page,
      (week_tail y w st).a5_pages = st.a5_pages ++ [some pd] ++ [some dl] ∧
      week_tail_facts y w st (week_tail y w st) pd dl := by
  refine ⟨({ template := "week_pad.svg",
             output := "week_pad_week" ++ toString w ++ ".svg",
             num := st.a5_pages.length + 1,
             repl := setRepl st.replacements "\x7bWEEK_DESCRIPTION_TEXT\x7d" (week_description y w) } : A5Page),
          ({ template := "week_daylist.svg",
             output := "week_daylist_week" ++ toString w ++ ".svg",
             num := (st.a5_pages ++ [some ({ template := "week_pad.svg", output := "week_pad_week" ++ toString w ++ ".svg", num := st.a5_pages.length + 1, repl := setRepl st.replacements "\x7bWEEK_DESCRIPTION_TEXT\x7d" (week_description y w) } : A5Page)]).length + 1,
             repl := (week_tail y w st).replacements } : A5Page), ?_, ?_⟩
  · rfl
  · unfold week_tail_facts
    refine ⟨rfl, rfl, ?_, ?_, ?_, ?_, rfl, rfl, ?_, ?_, ?_, ?_, rfl⟩
    · show setRepl st.replacements "\x7bWEEK_DESCRIPTION_TEXT\x7d" (week_description y w) "\x7bWEEK_DESCRIPTION_TEXT\x7d" = _
      exact setRepl_same _ _ _
    · show setRepl st.replacements "\x7bWEEK_DESCRIPTION_TEXT\x7d" (week_description y w) "\x7bMONTH_DAYS_TEXT\x7d" = _
      exact setRepl_other _ _ _ _ (by decide)
    · intro i hi
      show setRepl st.replacements "\x7bWEEK_DESCRIPTION_TEXT\x7d" (week_description y w) (dom_keys.getD i "") = _
      interval_cases i <;> exact setRepl_other _ _ _ _ (by decide)
    · show setRepl st.replacements "\x7bWEEK_DESCRIPTION_TEXT\x7d" (week_description y w) "\x7bMONTH\x7d" = _
      exact setRepl_other _ _ _ _ (by decide)
    · show (week_tail y w st).replacements "\x7bWEEK_DESCRIPTION_TEXT\x7d" = some (week_description y w)
      unfold week_tail
      dsimp only
      simp +decide [setRepl, add_page_from_template]
    · show (week_tail y w st).replacements "\x7bMONTH_DAYS_TEXT\x7d" = some (week_header y w)
      unfold week_tail
      dsimp only
      simp +decide [setRepl, add_page_from_template]
    · intro i hi
      show (week_tail y w st).replacements (dom_keys.getD i "")
          = some (toString (domOf (fromisocalendar y w 1 + i)))
      unfold week_tail
      dsimp only
      interval_cases i <;> simp +decide [setRepl, add_page_from_template, dom_keys, range7_eq]
    · show (week_tail y w st).replacements "\x7bMONTH\x7d" = st.replacements "\x7bMONTH\x7d"
      unfold week_tail
      dsimp only
      simp +decide [setRepl, add_page_from_template]

/-! ### Page-kind classification lemmas -/

theorem isPrefixOf_append_self (l1 l2 : List Char) : l1.isPrefixOf (l1 ++ l2) = true := by
  induction l1 with
  | nil => simp
  | cons a as ih => simp [List.isPrefixOf, ih]

theorem month_summary_template_ne (X : String) :
    "month_summary_" ++ X ≠ "week_pad.svg" ∧ "month_summary_" ++ X ≠ "week_daylist.svg" := by
  constructor <;> intro h <;>
  · have h2 := congrArg (fun s => s.data.head?) h
    simp only [String.data_append] at h2
    have h3 : (("month_summary_" : String).data ++ X.data).head? = some 'm' := rfl
    rw [h3] at h2
    exact absurd h2 (by decide)

theorem is_month_summary_of_template (p : A5Page) (X : String)
    (h : p.template = "month_summary_" ++ X) : is_month_summary p = true := by
  unfold is_month_summary
  rw [h, String.data_append]
  exact isPrefixOf_append_self _ _

theorem is_week_pad_of_summary (p : A5Page) (X : String)
    (h : p.template = "month_summary_" ++ X) : is_week_pad p = false := by
  unfold is_week_pad
  rw [h]
  exact beq_eq_false_iff_ne.mpr (month_summary_template_ne X).1

theorem is_week_daylist_of_summary (p : A5Page) (X : String)
    (h : p.template = "month_summary_" ++ X) : is_week_daylist p = false := by
  unfold is_week_daylist
  rw [h]
  exact beq_eq_false_iff_ne.mpr (month_summary_template_ne X).2

theorem pad_page_kinds (p : A5Page) (h : p.template = "week_pad.svg") :
    is_month_summary p = false ∧ is_week_pad p = true ∧ is_week_daylist p = false := by
  unfold is_month_summary is_week_pad is_week_daylist
  rw [h]
  exact ⟨by decide, by decide, by decide⟩

theorem daylist_page_kinds (p : A5Page) (h : p.template = "week_daylist.svg") :
    is_month_summary p = false ∧ is_week_pad p = false ∧ is_week_daylist p = true := by
  unfold is_month_summary is_week_pad is_week_daylist
  rw [h]
  exact ⟨by decide, by decide, by decide⟩

theorem summary_template_shape (c : Nat) :
    "month_summary_" ++ toString c ++ "wk.svg"
      = "month_summary_" ++ (toString c ++ "wk.svg") := by
  rw [String.append_assoc]

/-! ### The two cases of the week-loop body -/

theorem process_week_eq_not (y w : Nat) (st : PMState) (h : ¬ week_boundary y w) :
    process_week y w st = week_tail y w st := by
  unfold process_week
  dsimp only
  rw [if_neg (by unfold week_boundary at h; exact h)]

theorem process_week_eq_bd (y w : Nat) (st : PMState) (h : week_boundary y w) :
    process_week y w st = week_tail y w (process_month y (anchor_month y w) st) := by
  unfold process_week
  dsimp only
  rw [if_pos (by unfold week_boundary at h; exact h)]
  rfl

theorem summary_months_append (l1 l2 : List (Option A5Page)) :
    summary_months (l1 ++ l2) = summary_months l1 ++ summary_months l2 := by
  simp [summary_months, List.filterMap_append, List.filter_append]

theorem pad_week_descriptions_append (l1 l2 : List (Option A5Page)) :
    pad_week_descriptions (l1 ++ l2)
      = pad_week_descriptions l1 ++ pad_week_descriptions l2 := by
  simp [pad_week_descriptions, List.filterMap_append, List.filter_append]

theorem daylist_outputs_append (l1 l2 : List (Option A5Page)) :
    daylist_outputs (l1 ++ l2) = daylist_outputs l1 ++ daylist_outputs l2 := by
  simp [daylist_outputs, List.filterMap_append, List.filter_append]

/-- Each week appends one month-summary `{MONTH}` entry exactly when the month
boundary fires. -/
theorem summary_months_step (y w : Nat) (st : PMState) :
    summary_months (process_week y w st).a5_pages
      = summary_months st.a5_pages
        ++ (if week_boundary y w then [some (month_name_upper (anchor_month y w))] else []) := by
  by_cases h : week_boundary y w
  · rw [process_week_eq_bd y w st h, if_pos h]
    obtain ⟨ps, hpages, hrepl, htem, hout, hMON, hgrid, hmiss⟩ :=
      process_month_shape y (anchor_month y w) st
    obtain ⟨pd, dl, htail, hfacts⟩ :=
      week_tail_shape y w (process_month y (anchor_month y w) st)
    obtain ⟨hf1, hf2, hf3, hf4, hf5, hf6, hf7, hf8, hf9, hf10, hf11, hf12, hf13⟩ := hfacts
    have hsum_ps := is_month_summary_of_template ps _ (htem.trans (summary_template_shape _))
    have hpd := pad_page_kinds pd hf1
    have hdl := daylist_page_kinds dl hf7
    rw [htail, hpages]
    by_cases h1 : anchor_month y w ≠ 1 <;>
      simp [h1, summary_months, List.filterMap_append, List.filter_append,
        hsum_ps, hpd.1, hdl.1, hMON]
  · rw [process_week_eq_not y w st h, if_neg h]
    obtain ⟨pd, dl, htail, hfacts⟩ := week_tail_shape y w st
    obtain ⟨hf1, hf2, hf3, hf4, hf5, hf6, hf7, hf8, hf9, hf10, hf11, hf12, hf13⟩ := hfacts
    have hpd := pad_page_kinds pd hf1
    have hdl := daylist_page_kinds dl hf7
    rw [htail]
    simp [summary_months, List.filterMap_append, List.filter_append, hpd.1, hdl.1]

/-- Each week appends exactly one week-pad `{WEEK_DESCRIPTION_TEXT}` entry. -/
theorem pad_week_descriptions_step (y w : Nat) (st : PMState) :
    pad_week_descriptions (process_week y w st).a5_pages
      = pad_week_descriptions st.a5_pages ++ [some (week_description y w)] := by
  by_cases h : week_boundary y w
  · rw [process_week_eq_bd y w st h]
    obtain ⟨ps, hpages, hrepl, htem, hout, hMON, hgrid, hmiss⟩ :=
      process_month_shape y (anchor_month y w) st
    obtain ⟨pd, dl, htail, hfacts⟩ :=
      week_tail_shape y w (process_month y (anchor_month y w) st)
    obtain ⟨hf1, hf2, hf3, hf4, hf5, hf6, hf7, hf8, hf9, hf10, hf11, hf12, hf13⟩ := hfacts
    have hsum_ps := is_week_pad_of_summary ps _ (htem.trans (summary_template_shape _))
    have hpd := pad_page_kinds pd hf1
    have hdl := daylist_page_kinds dl hf7
    rw [htail, hpages]
    by_cases h1 : anchor_month y w ≠ 1 <;>
      simp [h1, pad_week_descriptions, List.filterMap_append, List.filter_append,
        hsum_ps, hpd.2.1, hdl.2.1, hf3]
  · rw [process_week_eq_not y w st h]
    obtain ⟨pd, dl, htail, hfacts⟩ := week_tail_shape y w st
    obtain ⟨hf1, hf2, hf3, hf4, hf5, hf6, hf7, hf8, hf9, hf10, hf11, hf12, hf13⟩ := hfacts
    have hpd := pad_page_kinds pd hf1
    have hdl := daylist_page_kinds dl hf7
    rw [htail]
    simp [pad_week_descriptions, List.filterMap_append, List.filter_append,
      hpd.2.1, hdl.2.1, hf3]

/-- Each week appends exactly one week day-list page (by output name). -/
theorem daylist_outputs_step (y w : Nat) (st : PMState) :
    daylist_outputs (process_week y w st).a5_pages
      = daylist_outputs st.a5_pages ++ ["week_daylist_week" ++ toString w ++ ".svg"] := by
  by_cases h : week_boundary y w
  · rw [process_week_eq_bd y w st h]
    obtain ⟨ps, hpages, hrepl, htem, hout, hMON, hgrid, hmiss⟩ :=
      process_month_shape y (anchor_month y w) st
    obtain ⟨pd, dl, htail, hfacts⟩ :=
      week_tail_shape y w (process_month y (anchor_month y w) st)
    obtain ⟨hf1, hf2, hf3, hf4, hf5, hf6, hf7, hf8, hf9, hf10, hf11, hf12, hf13⟩ := hfacts
    have hsum_ps := is_week_daylist_of_summary ps _ (htem.trans (summary_template_shape _))
    have hpd := pad_page_kinds pd hf1
    have hdl := daylist_page_kinds dl hf7
    rw [htail, hpages]
    by_cases h1 : anchor_month y w ≠ 1 <;>
      simp [h1, daylist_outputs, List.filterMap_append, List.filter_append,
        hsum_ps, hpd.2.2, hdl.2.2, hf8]
  · rw [process_week_eq_not y w st h]
    obtain ⟨pd, dl, htail, hfacts⟩ := week_tail_shape y w st
    obtain ⟨hf1, hf2, hf3, hf4, hf5, hf6, hf7, hf8, hf9, hf10, hf11, hf12, hf13⟩ := hfacts
    have hpd := pad_page_kinds pd hf1
    have hdl := daylist_page_kinds dl hf7
    rw [htail]
    simp [daylist_outputs, List.filterMap_append, List.filter_append,
      hpd.2.2, hdl.2.2, hf8]

/-! ### Months along a year, and the anchor (Thursday) sequence -/

theorem dimB_ge_28 (leap : Bool) (m : Nat) (hm1 : 1 ≤ m) (hm2 : m ≤ 12) :
    28 ≤ dimB leap m := by
  have H : ∀ (l : Bool), ∀ m : Fin 13, 1 ≤ m.val → 28 ≤ dimB l m.val := by decide
  exact H leap ⟨m, by omega⟩ hm1

theorem dbmB_ge_31 (leap : Bool) (m : Nat) (hm1 : 2 ≤ m) (hm2 : m ≤ 12) :
    31 ≤ dbmB leap m := by
  have H : ∀ (l : Bool), ∀ m : Fin 13, 2 ≤ m.val → 31 ≤ dbmB l m.val := by decide
  exact H leap ⟨m, by omega⟩ hm1

theorem dbm_dim_le_335 (leap : Bool) (m : Nat) (hm1 : 1 ≤ m) (hm2 : m ≤ 11) :
    dbmB leap m + dimB leap m ≤ 335 := by
  have H : ∀ (l : Bool), ∀ m : Fin 12, 1 ≤ m.val → dbmB l m.val + dimB l m.val ≤ 335 := by
    decide
  exact H leap ⟨m, by omega⟩ hm1

/-- Within one civil year, the month is monotone in the day offset. -/
theorem month_mono (y t1 t2 : Nat) (hy : 1 ≤ y) (h1 : 1 ≤ t1) (h12 : t1 ≤ t2)
    (h2 : t2 ≤ year_length y) :
    monthOf (days_before_year y + t1) ≤ monthOf (days_before_year y + t2) := by
  obtain ⟨-, ⟨-, hm1a, hm1b, hd1a, hd1b⟩, ho1, -⟩ :=
    ord2ymd_range y t1 hy h1 (by omega)
  obtain ⟨-, ⟨-, hm2a, hm2b, hd2a, hd2b⟩, ho2, -⟩ :=
    ord2ymd_range y t2 hy (by omega) h2
  rw [days_in_month_eq] at hd1b hd2b
  by_contra hlt
  have hmono := dbm_mono (is_leap y)
    (monthOf (days_before_year y + t2)) (monthOf (days_before_year y + t1))
    hm2a (by omega) hm1b
  omega

/-- Seven days later, the month advances by at most one. -/
theorem month_step7 (y t : Nat) (hy : 1 ≤ y) (h1 : 1 ≤ t) (h2 : t + 7 ≤ year_length y) :
    monthOf (days_before_year y + (t + 7)) ≤ monthOf (days_before_year y + t) + 1 := by
  obtain ⟨-, ⟨-, hm1a, hm1b, hd1a, hd1b⟩, ho1, -⟩ :=
    ord2ymd_range y t hy h1 (by omega)
  obtain ⟨-, ⟨-, hm2a, hm2b, hd2a, hd2b⟩, ho2, -⟩ :=
    ord2ymd_range y (t + 7) hy (by omega) h2
  rw [days_in_month_eq] at hd1b hd2b
  by_contra hgt
  have hge2 : monthOf (days_before_year y + t) + 2 ≤ monthOf (days_before_year y + (t + 7)) := by
    omega
  have hmono1 := dbm_mono (is_leap y)
    (monthOf (days_before_year y + t)) (monthOf (days_before_year y + t) + 1)
    hm1a (by omega) (by omega)
  have hmono2 := dbm_mono (is_leap y)
    (monthOf (days_before_year y + t) + 1) (monthOf (days_before_year y + (t + 7)))
    (by omega) (by omega) hm2b
  have hdim := dimB_ge_28 (is_leap y) (monthOf (days_before_year y + t) + 1)
    (by omega) (by omega)
  omega

/-- The month of one of the last seven days of a year is December. -/
theorem month_of_year_end (y t : Nat) (hy : 1 ≤ y)
    (h1 : year_length y ≤ t + 6) (h2 : t ≤ year_length y) :
    monthOf (days_before_year y + t) = 12 := by
  have hlen := year_length_bounds y
  obtain ⟨-, ⟨-, hma, hmb, hda, hdb⟩, ho, -⟩ :=
    ord2ymd_range y t hy (by omega) h2
  rw [days_in_month_eq] at hdb
  by_contra hne
  have hle := dbm_dim_le_335 (is_leap y) (monthOf (days_before_year y + t)) hma (by omega)
  omega

/-- The month of one of the first seven days of a year is January. -/
theorem month_of_year_start (y t : Nat) (hy : 1 ≤ y) (h1 : 1 ≤ t) (h2 : t ≤ 7) :
    monthOf (days_before_year y + t) = 1 := by
  have hlen := year_length_bounds y
  obtain ⟨-, ⟨-, hma, hmb, hda, hdb⟩, ho, -⟩ :=
    ord2ymd_range y t hy h1 (by omega)
  by_contra hne
  have hge := dbmB_ge_31 (is_leap y) (monthOf (days_before_year y + t)) (by omega) hmb
  omega

/-- `n_weeks_in_year` counts exactly the weeks between consecutive week-1
Mondays, and is 52 or 53. -/
theorem n_weeks_spec (y : Nat) (hy : 1 ≤ y) :
    isoweek1monday (y + 1) = isoweek1monday y + 7 * n_weeks_in_year y ∧
    (n_weeks_in_year y = 52 ∨ n_weeks_in_year y = 53) := by
  have s1 := isoweek1monday_spec y hy
  have s2 := isoweek1monday_spec (y + 1) (by omega)
  have hdiff := w1m_succ_diff y hy
  have hdy := dby_succ y hy
  have hlen := year_length_bounds y
  have ho : ymd2ord y 12 28 = days_before_year y + (year_length y - 3) := by
    rw [ymd2ord_eq_dby_add]
    unfold year_length
    rcases hL : is_leap y with _ | _
    · have h334 : dbmB false 12 = 334 := by decide
      rw [h334]
      norm_num
    · have h335 : dbmB true 12 = 335 := by decide
      rw [h335]
      norm_num
  have hcal := isocalendar_spec y (ymd2ord y 12 28) hy (by omega) (by omega)
  unfold n_weeks_in_year isoweekOf
  rw [hcal]
  simp only []
  rw [ho]
  omega

theorem anchor_eq (y w : Nat) (_hw : 1 ≤ w) :
    anchor y w = isoweek1monday y + 7 * (w - 1) + 3 := by
  unfold anchor fromisocalendar
  omega

theorem anchor_bounds (y w : Nat) (hy : 1 ≤ y) (h1 : 1 ≤ w) (h2 : w ≤ n_weeks_in_year y) :
    days_before_year y + 1 ≤ anchor y w ∧
    anchor y w ≤ days_before_year y + year_length y := by
  have s1 := isoweek1monday_spec y hy
  have s2 := isoweek1monday_spec (y + 1) (by omega)
  have hn := n_weeks_spec y hy
  have hdy := dby_succ y hy
  have ha := anchor_eq y w h1
  omega

theorem anchor_month_range (y w : Nat) (hy : 1 ≤ y) (h1 : 1 ≤ w)
    (h2 : w ≤ n_weeks_in_year y) :
    1 ≤ anchor_month y w ∧ anchor_month y w ≤ 12 := by
  have hb := anchor_bounds y w hy h1 h2
  obtain ⟨-, ⟨-, hma, hmb, -, -⟩, -, -⟩ :=
    ord2ymd_range y (anchor y w - days_before_year y) hy (by omega) (by omega)
  have heq : days_before_year y + (anchor y w - days_before_year y) = anchor y w := by omega
  rw [heq] at hma hmb
  exact ⟨hma, hmb⟩

theorem anchor_month_first (y : Nat) (hy : 1 ≤ y) : anchor_month y 1 = 1 := by
  have s1 := isoweek1monday_spec y hy
  have ha := anchor_eq y 1 le_rfl
  have hstart := month_of_year_start y (anchor y 1 - days_before_year y) hy (by omega) (by omega)
  have heq : days_before_year y + (anchor y 1 - days_before_year y) = anchor y 1 := by omega
  rw [heq] at hstart
  exact hstart

theorem week_boundary_first (y : Nat) (hy : 2 ≤ y) : week_boundary y 1 := by
  have s1 := isoweek1monday_spec y (by omega)
  have ha : fromisocalendar y 1 4 = anchor y 1 := rfl
  have haval := anchor_eq y 1 le_rfl
  have hy1 : (1 : Nat) ≤ y - 1 := by omega
  have hdy0 := dby_succ (y - 1) hy1
  have hy11 : y - 1 + 1 = y := by omega
  rw [hy11] at hdy0
  have hlen0 := year_length_bounds (y - 1)
  have hfirst := anchor_month_first y (by omega)
  unfold week_boundary
  rw [ha]
  unfold anchor_month at hfirst
  rw [hfirst]
  have heq : anchor y 1 - 7
      = days_before_year (y - 1) + (anchor y 1 - 7 - days_before_year (y - 1)) := by omega
  rw [heq]
  have hdec := month_of_year_end (y - 1) (anchor y 1 - 7 - days_before_year (y - 1)) hy1
    (by omega) (by omega)
  rw [hdec]
  omega

theorem anchor_month_succ_cases (y w : Nat) (hy : 1 ≤ y) (h1 : 1 ≤ w)
    (h2 : w + 1 ≤ n_weeks_in_year y) :
    (anchor_month y w ≤ anchor_month y (w + 1) ∧
      anchor_month y (w + 1) ≤ anchor_month y w + 1) ∧
    (week_boundary y (w + 1) ↔ anchor_month y (w + 1) = anchor_month y w + 1) := by
  have hb1 := anchor_bounds y w hy h1 (by omega)
  have hb2 := anchor_bounds y (w + 1) hy (by omega) h2
  have ha1 := anchor_eq y w h1
  have ha2 := anchor_eq y (w + 1) (by omega)
  have hstep : anchor y (w + 1) = anchor y w + 7 := by omega
  set t := anchor y w - days_before_year y with ht
  have he1 : days_before_year y + t = anchor y w := by omega
  have he2 : days_before_year y + (t + 7) = anchor y (w + 1) := by omega
  have hmono := month_mono y t (t + 7) hy (by omega) (by omega) (by omega)
  have hstep7 := month_step7 y t hy (by omega) (by omega)
  rw [he1, he2] at hmono hstep7
  have hbd : week_boundary y (w + 1) ↔
      monthOf (anchor y (w + 1)) ≠ monthOf (anchor y w) := by
    unfold week_boundary
    have : fromisocalendar y (w + 1) 4 = anchor y (w + 1) := rfl
    rw [this]
    have h7 : anchor y (w + 1) - 7 = anchor y w := by omega
    rw [h7]
  unfold anchor_month
  constructor
  · exact ⟨hmono, hstep7⟩
  · rw [hbd]
    omega

theorem anchor_month_last (y : Nat) (hy : 1 ≤ y) :
    anchor_month y (n_weeks_in_year y) = 12 := by
  have s1 := isoweek1monday_spec y hy
  have s2 := isoweek1monday_spec (y + 1) (by omega)
  have hn := n_weeks_spec y hy
  have hdy := dby_succ y hy
  have hlen := year_length_bounds y
  have ha := anchor_eq y (n_weeks_in_year y) (by omega)
  have hend := month_of_year_end y (anchor y (n_weeks_in_year y) - days_before_year y) hy
    (by omega) (by omega)
  have heq : days_before_year y
      + (anchor y (n_weeks_in_year y) - days_before_year y)
      = anchor y (n_weeks_in_year y) := by omega
  rw [heq] at hend
  exact hend

theorem anchor_month_reach (y : Nat) (hy : 1 ≤ y) :
    ∀ w, 1 ≤ w → w ≤ n_weeks_in_year y → ∀ m, 1 ≤ m → m ≤ anchor_month y w →
      ∃ u, 1 ≤ u ∧ u ≤ w ∧ anchor_month y u = m := by
  intro w
  induction w with
  | zero => omega
  | succ v ih =>
    intro _ hw m hm1 hm2
    by_cases hv : v = 0
    · subst hv
      have h1 := anchor_month_first y hy
      have hm2' : m ≤ anchor_month y 1 := hm2
      exact ⟨1, le_rfl, le_rfl, by omega⟩
    · have hcases := anchor_month_succ_cases y v hy (by omega) (by omega)
      by_cases hle : m ≤ anchor_month y v
      · obtain ⟨u, hu1, hu2, hu3⟩ := ih (by omega) (by omega) m hm1 hle
        exact ⟨u, hu1, by omega, hu3⟩
      · exact ⟨v + 1, by omega, le_rfl, by omega⟩

theorem anchor_month_exists (y m : Nat) (hy : 1 ≤ y) (hm1 : 1 ≤ m) (hm2 : m ≤ 12) :
    ∃ w, 1 ≤ w ∧ w ≤ n_weeks_in_year y ∧ anchor_month y w = m := by
  have hn := n_weeks_spec y hy
  have hlast := anchor_month_last y hy
  obtain ⟨u, hu1, hu2, hu3⟩ := anchor_month_reach y hy (n_weeks_in_year y)
    (by omega) le_rfl m hm1 (by omega)
  exact ⟨u, hu1, hu2, hu3⟩

/-! ### The week loop as a fold over weeks -/

theorem planner_upto_zero (y : Nat) (r : Bool) : planner_upto y r 0 = planner_init r := rfl

theorem planner_upto_succ (y : Nat) (r : Bool) (k : Nat) :
    planner_upto y r (k + 1) = process_week y (k + 1) (planner_upto y r k) := by
  unfold planner_upto
  rw [List.range'_concat, List.foldl_append]
  have h : 1 + 1 * k = k + 1 := by omega
  rw [h]
  rfl

theorem planner_state_eq (y : Nat) (r : Bool) :
    planner_state y r = planner_upto y r (n_weeks_in_year y) := rfl

theorem range'_map_succ {β : Type} (f : Nat → β) (k : Nat) :
    (List.range' 1 (k + 1)).map f = (List.range' 1 k).map f ++ [f (k + 1)] := by
  rw [List.range'_concat, List.map_append]
  have h : 1 + 1 * k = k + 1 := by omega
  rw [h]
  rfl

theorem boundary_weeks_zero (y : Nat) : boundary_weeks y 0 = [] := rfl

theorem boundary_weeks_succ (y k : Nat) :
    boundary_weeks y (k + 1)
      = boundary_weeks y k ++ (if week_boundary y (k + 1) then [k + 1] else []) := by
  unfold boundary_weeks
  rw [List.range'_concat, List.filter_append]
  have h : 1 + 1 * k = k + 1 := by omega
  rw [h]
  by_cases hb : week_boundary y (k + 1)
  · simp [List.filter_cons, hb]
  · simp [List.filter_cons, hb]

theorem grid_key_ne_dom :
    ∀ d : Fin 42, ∀ i : Fin 7, grid_key d.val ≠ dom_keys.getD i.val "" := by
  decide

theorem dom_keys_ne :
    ∀ i : Fin 7, dom_keys.getD i.val "" ≠ "\x7bMONTH\x7d" ∧
      dom_keys.getD i.val "" ≠ "\x7bMONTH_DAYS_TEXT\x7d" := by
  decide

theorem process_month_repl_MONTH (y m : Nat) (st : PMState) :
    (process_month y m st).replacements "\x7bMONTH\x7d" = some (month_name_upper m) := by
  obtain ⟨ps, hpages, hrepl, htem, hout, hMON, hgrid, hmiss⟩ := process_month_shape y m st
  rw [hrepl, hMON]

theorem process_month_repl_other (y m : Nat) (st : PMState) (k : String)
    (hk : ∀ d, d < 42 → grid_key d ≠ k) (hkM : k ≠ "\x7bMONTH\x7d") :
    (process_month y m st).replacements k = st.replacements k := by
  obtain ⟨ps, hpages, hrepl, htem, hout, hMON, hgrid, hmiss⟩ := process_month_shape y m st
  rw [hrepl]
  exact hmiss k hk hkM

/-- Each week appends one week-pad `{MONTH_DAYS_TEXT}` snapshot holding the
incoming value (the header is only updated after the pad page is emitted). -/
theorem pad_headers_step (y w : Nat) (st : PMState) :
    pad_headers (process_week y w st).a5_pages
      = pad_headers st.a5_pages ++ [st.replacements "\x7bMONTH_DAYS_TEXT\x7d"] := by
  by_cases h : week_boundary y w
  · rw [process_week_eq_bd y w st h]
    obtain ⟨ps, hpages, hrepl, htem, hout, hMON, hgrid, hmiss⟩ :=
      process_month_shape y (anchor_month y w) st
    obtain ⟨pd, dl, htail, hfacts⟩ :=
      week_tail_shape y w (process_month y (anchor_month y w) st)
    obtain ⟨hf1, hf2, hf3, hf4, hf5, hf6, hf7, hf8, hf9, hf10, hf11, hf12, hf13⟩ := hfacts
    have hsum_ps := is_week_pad_of_summary ps _ (htem.trans (summary_template_shape _))
    have hpd := pad_page_kinds pd hf1
    have hdl := daylist_page_kinds dl hf7
    have hval : pd.repl "\x7bMONTH_DAYS_TEXT\x7d"
        = st.replacements "\x7bMONTH_DAYS_TEXT\x7d" := by
      rw [hf4]
      exact process_month_repl_other y (anchor_month y w) st _
        (fun d hd => (grid_key_ne_special ⟨d, hd⟩).2.2.1) (by decide)
    rw [htail, hpages]
    by_cases h1 : anchor_month y w ≠ 1 <;>
      simp [h1, pad_headers, List.filterMap_append, List.filter_append,
        hsum_ps, hpd.2.1, hdl.2.1, hval]
  · rw [process_week_eq_not y w st h]
    obtain ⟨pd, dl, htail, hfacts⟩ := week_tail_shape y w st
    obtain ⟨hf1, hf2, hf3, hf4, hf5, hf6, hf7, hf8, hf9, hf10, hf11, hf12, hf13⟩ := hfacts
    have hpd := pad_page_kinds pd hf1
    have hdl := daylist_page_kinds dl hf7
    rw [htail]
    simp [pad_headers, List.filterMap_append, List.filter_append, hpd.2.1, hdl.2.1, hf4]

/-- Each week appends one week-pad day-of-month snapshot per key, holding the
incoming value. -/
theorem pad_dom_step (y w : Nat) (st : PMState) (i : Nat) (hi : i < 7) :
    pad_dom i (process_week y w st).a5_pages
      = pad_dom i st.a5_pages ++ [st.replacements (dom_keys.getD i "")] := by
  by_cases h : week_boundary y w
  · rw [process_week_eq_bd y w st h]
    obtain ⟨ps, hpages, hrepl, htem, hout, hMON, hgrid, hmiss⟩ :=
      process_month_shape y (anchor_month y w) st
    obtain ⟨pd, dl, htail, hfacts⟩ :=
      week_tail_shape y w (process_month y (anchor_month y w) st)
    obtain ⟨hf1, hf2, hf3, hf4, hf5, hf6, hf7, hf8, hf9, hf10, hf11, hf12, hf13⟩ := hfacts
    have hsum_ps := is_week_pad_of_summary ps _ (htem.trans (summary_template_shape _))
    have hpd := pad_page_kinds pd hf1
    have hdl := daylist_page_kinds dl hf7
    have hval : pd.repl (dom_keys.getD i "")
        = st.replacements (dom_keys.getD i "") := by
      rw [hf5 i hi]
      exact process_month_repl_other y (anchor_month y w) st _
        (fun d hd => grid_key_ne_dom ⟨d, hd⟩ ⟨i, hi⟩) (dom_keys_ne ⟨i, hi⟩).1
    rw [htail, hpages]
    by_cases h1 : anchor_month y w ≠ 1 <;>
      simp [h1, pad_dom, List.filterMap_append, List.filter_append,
        hsum_ps, hpd.2.1, hdl.2.1] <;> rw [List.getD_eq_getElem?_getD] at hval <;> exact hval
  · rw [process_week_eq_not y w st h]
    obtain ⟨pd, dl, htail, hfacts⟩ := week_tail_shape y w st
    obtain ⟨hf1, hf2, hf3, hf4, hf5, hf6, hf7, hf8, hf9, hf10, hf11, hf12, hf13⟩ := hfacts
    have hpd := pad_page_kinds pd hf1
    have hdl := daylist_page_kinds dl hf7
    rw [htail]
    simp [pad_dom, List.filterMap_append, List.filter_append, hpd.2.1, hdl.2.1]
    have hv := hf5 i hi
    rw [List.getD_eq_getElem?_getD] at hv
    exact hv

/-- Each week appends one week-pad `{MONTH}` snapshot: the freshly-set month
name on a boundary week, the incoming value otherwise. -/
theorem pad_months_step (y w : Nat) (st : PMState) :
    pad_months (process_week y w st).a5_pages
      = pad_months st.a5_pages
        ++ [if week_boundary y w then some (month_name_upper (anchor_month y w))
            else st.replacements "\x7bMONTH\x7d"] := by
  by_cases h : week_boundary y w
  · rw [if_pos h, process_week_eq_bd y w st h]
    obtain ⟨ps, hpages, hrepl, htem, hout, hMON, hgrid, hmiss⟩ :=
      process_month_shape y (anchor_month y w) st
    obtain ⟨pd, dl, htail, hfacts⟩ :=
      week_tail_shape y w (process_month y (anchor_month y w) st)
    obtain ⟨hf1, hf2, hf3, hf4, hf5, hf6, hf7, hf8, hf9, hf10, hf11, hf12, hf13⟩ := hfacts
    have hsum_ps := is_week_pad_of_summary ps _ (htem.trans (summary_template_shape _))
    have hpd := pad_page_kinds pd hf1
    have hdl := daylist_page_kinds dl hf7
    have hval : pd.repl "\x7bMONTH\x7d" = some (month_name_upper (anchor_month y w)) := by
      rw [hf6]
      exact process_month_repl_MONTH y (anchor_month y w) st
    rw [htail, hpages]
    by_cases h1 : anchor_month y w ≠ 1 <;>
      simp [h1, pad_months, List.filterMap_append, List.filter_append,
        hsum_ps, hpd.2.1, hdl.2.1, hval]
  · rw [if_neg h, process_week_eq_not y w st h]
    obtain ⟨pd, dl, htail, hfacts⟩ := week_tail_shape y w st
    obtain ⟨hf1, hf2, hf3, hf4, hf5, hf6, hf7, hf8, hf9, hf10, hf11, hf12, hf13⟩ := hfacts
    have hpd := pad_page_kinds pd hf1
    have hdl := daylist_page_kinds dl hf7
    rw [htail]
    simp [pad_months, List.filterMap_append, List.filter_append, hpd.2.1, hdl.2.1, hf6]

/-- Each week appends one day-list `{MONTH_DAYS_TEXT}` entry holding the
current week's header. -/
theorem daylist_headers_step (y w : Nat) (st : PMState) :
    daylist_headers (process_week y w st).a5_pages
      = daylist_headers st.a5_pages ++ [some (week_header y w)] := by
  by_cases h : week_boundary y w
  · rw [process_week_eq_bd y w st h]
    obtain ⟨ps, hpages, hrepl, htem, hout, hMON, hgrid, hmiss⟩ :=
      process_month_shape y (anchor_month y w) st
    obtain ⟨pd, dl, htail, hfacts⟩ :=
      week_tail_shape y w (process_month y (anchor_month y w) st)
    obtain ⟨hf1, hf2, hf3, hf4, hf5, hf6, hf7, hf8, hf9, hf10, hf11, hf12, hf13⟩ := hfacts
    have hsum_ps := is_week_daylist_of_summary ps _ (htem.trans (summary_template_shape _))
    have hpd := pad_page_kinds pd hf1
    have hdl := daylist_page_kinds dl hf7
    rw [htail, hpages]
    by_cases h1 : anchor_month y w ≠ 1 <;>
      simp [h1, daylist_headers, List.filterMap_append, List.filter_append,
        hsum_ps, hpd.2.2, hdl.2.2, hf10]
  · rw [process_week_eq_not y w st h]
    obtain ⟨pd, dl, htail, hfacts⟩ := week_tail_shape y w st
    obtain ⟨hf1, hf2, hf3, hf4, hf5, hf6, hf7, hf8, hf9, hf10, hf11, hf12, hf13⟩ := hfacts
    have hpd := pad_page_kinds pd hf1
    have hdl := daylist_page_kinds dl hf7
    rw [htail]
    simp [daylist_headers, List.filterMap_append, List.filter_append,
      hpd.2.2, hdl.2.2, hf10]

/-- Each week appends one day-list day-of-month entry per key, holding the
current week's value. -/
theorem daylist_dom_step (y w : Nat) (st : PMState) (i : Nat) (hi : i < 7) :
    daylist_dom i (process_week y w st).a5_pages
      = daylist_dom i st.a5_pages
        ++ [some (toString (domOf (fromisocalendar y w 1 + i)))] := by
  by_cases h : week_boundary y w
  · rw [process_week_eq_bd y w st h]
    obtain ⟨ps, hpages, hrepl, htem, hout, hMON, hgrid, hmiss⟩ :=
      process_month_shape y (anchor_month y w) st
    obtain ⟨pd, dl, htail, hfacts⟩ :=
      week_tail_shape y w (process_month y (anchor_month y w) st)
    obtain ⟨hf1, hf2, hf3, hf4, hf5, hf6, hf7, hf8, hf9, hf10, hf11, hf12, hf13⟩ := hfacts
    have hsum_ps := is_week_daylist_of_summary ps _ (htem.trans (summary_template_shape _))
    have hpd := pad_page_kinds pd hf1
    have hdl := daylist_page_kinds dl hf7
    rw [htail, hpages]
    by_cases h1 : anchor_month y w ≠ 1 <;>
      simp [h1, daylist_dom, List.filterMap_append, List.filter_append,
        hsum_ps, hpd.2.2, hdl.2.2] <;> rw [← List.getD_eq_getElem?_getD] <;> exact hf11 i hi
  · rw [process_week_eq_not y w st h]
    obtain ⟨pd, dl, htail, hfacts⟩ := week_tail_shape y w st
    obtain ⟨hf1, hf2, hf3, hf4, hf5, hf6, hf7, hf8, hf9, hf10, hf11, hf12, hf13⟩ := hfacts
    have hpd := pad_page_kinds pd hf1
    have hdl := daylist_page_kinds dl hf7
    rw [htail]
    simp [daylist_dom, List.filterMap_append, List.filter_append,
      hpd.2.2, hdl.2.2]
    rw [← List.getD_eq_getElem?_getD]
    exact hf11 i hi

/-- The replacement dictionary after one week-loop iteration: header and
day-of-month keys hold the current week's values; `{MONTH}` is freshly set on
a boundary week and untouched otherwise. -/
theorem process_week_repl (y w : Nat) (st : PMState) :
    (process_week y w st).replacements "\x7bMONTH_DAYS_TEXT\x7d"
        = some (week_header y w) ∧
    (∀ i, i < 7 → (process_week y w st).replacements (dom_keys.getD i "")
        = some (toString (domOf (fromisocalendar y w 1 + i)))) ∧
    (process_week y w st).replacements "\x7bMONTH\x7d"
        = (if week_boundary y w then some (month_name_upper (anchor_month y w))
           else st.replacements "\x7bMONTH\x7d") := by
  by_cases h : week_boundary y w
  · rw [process_week_eq_bd y w st h, if_pos h]
    obtain ⟨pd, dl, htail, hfacts⟩ :=
      week_tail_shape y w (process_month y (anchor_month y w) st)
    obtain ⟨hf1, hf2, hf3, hf4, hf5, hf6, hf7, hf8, hf9, hf10, hf11, hf12, hf13⟩ := hfacts
    refine ⟨by rw [hf13]; exact hf10, fun i hi => by rw [hf13]; exact hf11 i hi, ?_⟩
    rw [hf13, hf12]
    exact process_month_repl_MONTH y (anchor_month y w) st
  · rw [process_week_eq_not y w st h, if_neg h]
    obtain ⟨pd, dl, htail, hfacts⟩ := week_tail_shape y w st
    obtain ⟨hf1, hf2, hf3, hf4, hf5, hf6, hf7, hf8, hf9, hf10, hf11, hf12, hf13⟩ := hfacts
    exact ⟨by rw [hf13]; exact hf10, fun i hi => by rw [hf13]; exact hf11 i hi,
      by rw [hf13, hf12]⟩

/-- The block of pages appended by one week-loop iteration. -/
theorem process_week_block (y w : Nat) (st : PMState) :
    (¬ week_boundary y w → ∃ pd dl : A5Page,
      (process_week y w st).a5_pages = st.a5_pages ++ [some pd, some dl] ∧
      pd.template = "week_pad.svg" ∧ dl.template = "week_daylist.svg") ∧
    (week_boundary y w → ∃ ps pd dl : A5Page,
      (process_week y w st).a5_pages
        = st.a5_pages ++ (if anchor_month y w ≠ 1 then [none] else [])
            ++ [some ps, some pd, some dl] ∧
      ps.template = "month_summary_"
          ++ toString ((grid_weeks y (anchor_month y w)).card) ++ "wk.svg" ∧
      ps.repl "\x7bMONTH\x7d" = some (month_name_upper (anchor_month y w)) ∧
      pd.template = "week_pad.svg" ∧ dl.template = "week_daylist.svg") := by
  constructor
  · intro h
    rw [process_week_eq_not y w st h]
    obtain ⟨pd, dl, htail, hfacts⟩ := week_tail_shape y w st
    obtain ⟨hf1, -, -, -, -, -, hf7, -, -, -, -, -, -⟩ := hfacts
    exact ⟨pd, dl, by rw [htail]; simp, hf1, hf7⟩
  · intro h
    rw [process_week_eq_bd y w st h]
    obtain ⟨ps, hpages, hrepl, htem, hout, hMON, hgrid, hmiss⟩ :=
      process_month_shape y (anchor_month y w) st
    obtain ⟨pd, dl, htail, hfacts⟩ :=
      week_tail_shape y w (process_month y (anchor_month y w) st)
    obtain ⟨hf1, -, -, -, -, -, hf7, -, -, -, -, -, -⟩ := hfacts
    refine ⟨ps, pd, dl, ?_, htem, hMON, hf1, hf7⟩
    rw [htail, hpages]
    simp [List.append_assoc]

/-- The anchor months of the boundary weeks among `1..k` are exactly
`1, 2, ..., anchor_month y k`, in order: a boundary fires exactly when the
anchor month steps up by one. -/
theorem boundary_anchor_map (y : Nat) (hy : 2 ≤ y) :
    ∀ k, 1 ≤ k → k ≤ n_weeks_in_year y →
      (boundary_weeks y k).map (fun w => anchor_month y w)
        = List.range' 1 (anchor_month y k) := by
  intro k
  induction k with
  | zero => omega
  | succ v ih =>
    intro _ hk
    by_cases hv : v = 0
    · subst hv
      have hb := week_boundary_first y hy
      have h1 : anchor_month y (0 + 1) = 1 := anchor_month_first y (by omega)
      rw [boundary_weeks_succ, boundary_weeks_zero, if_pos hb]
      simp [h1, List.range'_one]
    · have hcases := anchor_month_succ_cases y v (by omega) (by omega) hk
      obtain ⟨⟨ha1, ha2⟩, hiff⟩ := hcases
      have hih := ih (by omega) (by omega)
      rw [boundary_weeks_succ]
      by_cases hb : week_boundary y (v + 1)
      · rw [if_pos hb]
        have ham : anchor_month y (v + 1) = anchor_month y v + 1 := hiff.mp hb
        rw [List.map_append, hih, ham, List.range'_concat]
        have he : 1 + 1 * anchor_month y v = anchor_month y v + 1 := by omega
        rw [he]
        simp [ham]
      · rw [if_neg hb]
        have hne : anchor_month y (v + 1) ≠ anchor_month y v + 1 := fun he => hb (hiff.mpr he)
        have ham : anchor_month y (v + 1) = anchor_month y v := by omega
        rw [List.map_append, hih, ham]
        simp

/-- The page traces of the planner after `k` weeks: month summaries appear at
the boundary weeks carrying the anchor month's name; each week contributes one
pad page (whose snapshot still holds the previous week's day-list values, none
for week 1) and one day-list page (holding the current week's values); and the
replacement dictionary after week `k` holds week `k`'s values. -/
theorem planner_traces (y : Nat) (r : Bool) (hy : 2 ≤ y) :
    ∀ k, k ≤ n_weeks_in_year y →
      summary_months (planner_upto y r k).a5_pages
        = (boundary_weeks y k).map (fun w => some (month_name_upper (anchor_month y w))) ∧
      pad_week_descriptions (planner_upto y r k).a5_pages
        = (List.range' 1 k).map (fun w => some (week_description y w)) ∧
      daylist_outputs (planner_upto y r k).a5_pages
        = (List.range' 1 k).map (fun w => "week_daylist_week" ++ toString w ++ ".svg") ∧
      daylist_headers (planner_upto y r k).a5_pages
        = (List.range' 1 k).map (fun w => some (week_header y w)) ∧
      (∀ i, i < 7 → daylist_dom i (planner_upto y r k).a5_pages
        = (List.range' 1 k).map
            (fun w => some (toString (domOf (fromisocalendar y w 1 + i))))) ∧
      pad_headers (planner_upto y r k).a5_pages
        = (List.range' 1 k).map
            (fun w => if w = 1 then none else some (week_header y (w - 1))) ∧
      (∀ i, i < 7 → pad_dom i (planner_upto y r k).a5_pages
        = (List.range' 1 k).map
            (fun w => if w = 1 then none
              else some (toString (domOf (fromisocalendar y (w - 1) 1 + i))))) ∧
      pad_months (planner_upto y r k).a5_pages
        = (List.range' 1 k).map (fun w => some (month_name_upper (anchor_month y w))) ∧
      (k = 0 →
        (planner_upto y r k).replacements "\x7bMONTH_DAYS_TEXT\x7d" = none ∧
        (∀ i, i < 7 →
          (planner_upto y r k).replacements (dom_keys.getD i "") = none)) ∧
      (1 ≤ k →
        (planner_upto y r k).replacements "\x7bMONTH_DAYS_TEXT\x7d"
          = some (week_header y k) ∧
        (∀ i, i < 7 → (planner_upto y r k).replacements (dom_keys.getD i "")
          = some (toString (domOf (fromisocalendar y k 1 + i)))) ∧
        (planner_upto y r k).replacements "\x7bMONTH\x7d"
          = some (month_name_upper (anchor_month y k))) := by
  intro k
  induction k with
  | zero =>
    intro _
    have hpg : (planner_upto y r 0).a5_pages = (if r then [] else [none]) := by
      cases r <;> rfl
    have hrp : (planner_upto y r 0).replacements = emptyRepl := by
      cases r <;> rfl
    refine ⟨?_, ?_, ?_, ?_, fun i hi => ?_, ?_, fun i hi => ?_, ?_, ?_, ?_⟩
    · rw [hpg, boundary_weeks_zero]
      cases r <;> simp [summary_months]
    · rw [hpg]; cases r <;> simp [pad_week_descriptions]
    · rw [hpg]; cases r <;> simp [daylist_outputs]
    · rw [hpg]; cases r <;> simp [daylist_headers]
    · rw [hpg]; cases r <;> simp [daylist_dom]
    · rw [hpg]; cases r <;> simp [pad_headers]
    · rw [hpg]; cases r <;> simp [pad_dom]
    · rw [hpg]; cases r <;> simp [pad_months]
    · intro _
      rw [hrp]
      exact ⟨rfl, fun i hi => rfl⟩
    · intro h
      omega
  | succ v ih =>
    intro hk
    obtain ⟨ih1, ih2, ih3, ih4, ih5, ih6, ih7, ih8, ih9, ih10⟩ := ih (by omega)
    rw [planner_upto_succ]
    set st := planner_upto y r v with hst
    obtain ⟨hr1, hr2, hr3⟩ := process_week_repl y (v + 1) st
    have hvb : v = 0 ∨ 1 ≤ v := by omega
    have hMON_pres : ¬ week_boundary y (v + 1) →
        st.replacements "\x7bMONTH\x7d"
          = some (month_name_upper (anchor_month y (v + 1))) := by
      intro hb
      rcases hvb with hv0 | hv1
      · subst hv0
        exact absurd (week_boundary_first y hy) hb
      · obtain ⟨⟨ha1, ha2⟩, hiff⟩ := anchor_month_succ_cases y v (by omega) hv1 hk
        have hne : anchor_month y (v + 1) ≠ anchor_month y v + 1 :=
          fun he => hb (hiff.mpr he)
        have ham : anchor_month y (v + 1) = anchor_month y v := by omega
        rw [(ih10 hv1).2.2, ham]
    refine ⟨?_, ?_, ?_, ?_, fun i hi => ?_, ?_, fun i hi => ?_, ?_, ?_, ?_⟩
    · rw [summary_months_step, ih1, boundary_weeks_succ, List.map_append]
      by_cases hb : week_boundary y (v + 1) <;> simp [hb]
    · rw [pad_week_descriptions_step, ih2, range'_map_succ]
    · rw [daylist_outputs_step, ih3, range'_map_succ]
    · rw [daylist_headers_step, ih4, range'_map_succ]
    · rw [daylist_dom_step y (v + 1) st i hi, ih5 i hi, range'_map_succ]
    · rw [pad_headers_step, ih6, range'_map_succ]
      congr 1
      rcases hvb with hv0 | hv1
      · subst hv0
        rw [(ih9 rfl).1]
        simp
      · rw [(ih10 hv1).1]
        have hne : v + 1 ≠ 1 := by omega
        simp [hne]
    · rw [pad_dom_step y (v + 1) st i hi, ih7 i hi, range'_map_succ]
      congr 1
      rcases hvb with hv0 | hv1
      · subst hv0
        rw [(ih9 rfl).2 i hi]
        simp
      · rw [((ih10 hv1).2.1) i hi]
        have hne : v + 1 ≠ 1 := by omega
        simp [hne]
    · rw [pad_months_step, ih8, range'_map_succ]
      congr 1
      by_cases hb : week_boundary y (v + 1)
      · rw [if_pos hb]
      · rw [if_neg hb, hMON_pres hb]
    · intro h
      exact absurd h (Nat.succ_ne_zero v)
    · intro _
      refine ⟨hr1, hr2, ?_⟩
      rw [hr3]
      by_cases hb : week_boundary y (v + 1)
      · rw [if_pos hb]
      · rw [if_neg hb, hMON_pres hb]

theorem summaries_at_parity_append (par : Nat) (l t : List (Option A5Page))
    (hl : summaries_at_parity par l)
    (ht : ∀ j, ∀ hj : j < t.length, ∀ p : A5Page, t[j] = some p →
      is_month_summary p = true → (l.length + j) % 2 = par) :
    summaries_at_parity par (l ++ t) := by
  intro i h p hp hsum
  rw [List.length_append] at h
  by_cases hil : i < l.length
  · rw [List.getElem_append_left hil] at hp
    exact hl i hil p hp hsum
  · have hj : i - l.length < t.length := by omega
    rw [List.getElem_append_right (by omega)] at hp
    have hres := ht (i - l.length) hj p hp hsum
    omega

theorem planner_init_none (r : Bool) :
    ∀ i, ∀ h : i < (planner_init r).a5_pages.length,
      (planner_init r).a5_pages[i] = none := by
  cases r
  · intro i h
    have h1 : i < 1 := h
    have h0 : i = 0 := by omega
    subst h0
    rfl
  · intro i h
    have h1 : i < 0 := h
    omega

/-- Month-summary positional parity: every summary page of the planner output
sits at a position whose parity is that of the initial page count (odd in
no-reorder mode, even in reorder mode), and the total length flips parity after
week 1 and keeps it afterwards. -/
theorem planner_parity (y : Nat) (r : Bool) (hy : 2 ≤ y) :
    ∀ k, k ≤ n_weeks_in_year y →
      summaries_at_parity ((planner_init r).a5_pages.length % 2)
        (planner_upto y r k).a5_pages ∧
      (planner_upto y r k).a5_pages.length % 2
        = (if k = 0 then (planner_init r).a5_pages.length % 2
           else ((planner_init r).a5_pages.length + 1) % 2) := by
  intro k
  induction k with
  | zero =>
    intro _
    constructor
    · intro i h p hp hsum
      have hnone : (planner_upto y r 0).a5_pages[i] = none := planner_init_none r i h
      rw [hnone] at hp
      exact absurd hp (by simp)
    · simp [planner_upto_zero]
  | succ v ih =>
    intro hk
    obtain ⟨ihp, ihl⟩ := ih (by omega)
    rw [planner_upto_succ]
    set st := planner_upto y r v with hst
    have hblock := process_week_block y (v + 1) st
    by_cases hb : week_boundary y (v + 1)
    · obtain ⟨ps, pd, dl, hpg, htem, hMON, hpdt, hdlt⟩ := hblock.2 hb
      have hsum_pd := (pad_page_kinds pd hpdt).1
      have hsum_dl := (daylist_page_kinds dl hdlt).1
      by_cases h1 : anchor_month y (v + 1) ≠ 1
      · have hv1 : 1 ≤ v := by
          by_contra hv0
          have hv0' : v = 0 := by omega
          subst hv0'
          exact h1 (anchor_month_first y (by omega))
        have hlen : st.a5_pages.length % 2
            = ((planner_init r).a5_pages.length + 1) % 2 := by
          rw [ihl, if_neg (by omega)]
        rw [hpg, if_pos h1, List.append_assoc]
        constructor
        · refine summaries_at_parity_append _ _ _ ihp ?_
          intro j hj p hp hsum
          have hj4 : j < 4 := hj
          interval_cases j
          · simp at hp
          · simp at hp
            subst hp
            omega
          · simp at hp
            subst hp
            simp [hsum_pd] at hsum
          · simp at hp
            subst hp
            simp [hsum_dl] at hsum
        · simp only [List.length_append, List.length_cons, List.length_nil]
          rw [if_neg (Nat.succ_ne_zero v)]
          omega
      · have ham1 : anchor_month y (v + 1) = 1 := by omega
        have hv0 : v = 0 := by
          by_contra hv
          have hv1 : 1 ≤ v := by omega
          obtain ⟨⟨ha1, ha2⟩, hiff⟩ := anchor_month_succ_cases y v (by omega) hv1 hk
          have ham := hiff.mp hb
          have hr := anchor_month_range y v (by omega) hv1 (by omega)
          omega
        subst hv0
        have hlen0 : st.a5_pages.length % 2 = (planner_init r).a5_pages.length % 2 := by
          rw [ihl, if_pos rfl]
        rw [hpg, if_neg h1, List.append_nil]
        constructor
        · refine summaries_at_parity_append _ _ _ ihp ?_
          intro j hj p hp hsum
          have hj3 : j < 3 := hj
          interval_cases j
          · simp at hp
            subst hp
            omega
          · simp at hp
            subst hp
            simp [hsum_pd] at hsum
          · simp at hp
            subst hp
            simp [hsum_dl] at hsum
        · simp only [List.length_append, List.length_cons, List.length_nil]
          rw [if_neg (Nat.succ_ne_zero 0)]
          omega
    · obtain ⟨pd, dl, hpg, hpdt, hdlt⟩ := hblock.1 hb
      have hv1 : 1 ≤ v := by
        by_contra hv
        have hv0 : v = 0 := by omega
        subst hv0
        exact hb (week_boundary_first y hy)
      have hlen : st.a5_pages.length % 2
          = ((planner_init r).a5_pages.length + 1) % 2 := by
        rw [ihl, if_neg (by omega)]
      rw [hpg]
      constructor
      · refine summaries_at_parity_append _ _ _ ihp ?_
        intro j hj p hp hsum
        have hj2 : j < 2 := hj
        interval_cases j
        · simp at hp
          subst hp
          simp [(pad_page_kinds pd hpdt).1] at hsum
        · simp at hp
          subst hp
          simp [(daylist_page_kinds dl hdlt).1] at hsum
      · simp only [List.length_append, List.length_cons, List.length_nil]
        rw [if_neg (Nat.succ_ne_zero v)]
        omega

theorem summaries_at_parity_pad (par : Nat) (l : List (Option A5Page))
    (h : summaries_at_parity par l) : summaries_at_parity par (pad_pages l) := by
  unfold pad_pages
  refine summaries_at_parity_append _ _ _ h ?_
  intro j hj p hp hsum
  rw [List.getElem_replicate] at hp
  exact absurd hp (by simp)

/-- Pages at positions of the right parity land in the right-hand slot of some
sheet: position parity odd for natural mode, even for reorder mode. -/
theorem impose_right_slot {α : Type} (r : Bool) :
    ∀ (n : Nat) (l : List α), l.length = 4 * n →
      ∀ i, ∀ hi : i < l.length, i % 2 = (if r then 0 else 1) →
        ∃ s, ∃ hs : s < (impose r l).length,
          ((impose r l).get ⟨s, hs⟩).2 = l.get ⟨i, hi⟩ := by
  intro n
  induction n with
  | zero =>
    intro l hl i hi hp
    rw [hl] at hi
    omega
  | succ m ih =>
    intro l hl i hi hp
    rcases l with _ | ⟨p0, l⟩
    · simp at hl
    rcases l with _ | ⟨p1, l⟩
    · simp at hl; omega
    rcases l with _ | ⟨p2, l⟩
    · simp at hl; omega
    rcases l with _ | ⟨p3, rest⟩
    · simp at hl; omega
    have hrest : rest.length = 4 * m := by
      simp [List.length_cons] at hl
      omega
    rw [impose_cons4]
    cases r
    · rw [if_neg Bool.false_ne_true]
      have hp1 : i % 2 = 1 := hp
      rcases i with _ | _ | _ | _ | j
      · exact absurd hp1 (by omega)
      · exact ⟨0, by simp, rfl⟩
      · exact absurd hp1 (by omega)
      · exact ⟨1, by simp, rfl⟩
      · have hj : j + 4 < (p0 :: p1 :: p2 :: p3 :: rest).length := hi
        have hjr : j < rest.length := by
          simp [List.length_cons] at hj
          omega
        obtain ⟨s, hs, hseq⟩ := ih rest hrest j hjr (by omega)
        refine ⟨s + 2, ?_, ?_⟩
        · simp only [List.cons_append, List.nil_append, List.length_cons]
          omega
        · exact hseq
    · rw [if_pos rfl]
      have hp1 : i % 2 = 0 := hp
      rcases i with _ | _ | _ | _ | j
      · exact ⟨0, by simp, rfl⟩
      · exact absurd hp1 (by omega)
      · exact ⟨1, by simp, rfl⟩
      · exact absurd hp1 (by omega)
      · have hj : j + 4 < (p0 :: p1 :: p2 :: p3 :: rest).length := hi
        have hjr : j < rest.length := by
          simp [List.length_cons] at hj
          omega
        obtain ⟨s, hs, hseq⟩ := ih rest hrest j hjr (by omega)
        refine ⟨s + 2, ?_, ?_⟩
        · simp only [List.cons_append, List.nil_append, List.length_cons]
          omega
        · exact hseq

/-- Any ordinal within five days of year `y`'s span decodes to a month in 1..12. -/
theorem monthOf_bounds3 (y o : Nat) (hy : 2 ≤ y) (hlo : days_before_year y ≤ o + 5)
    (hhi : o ≤ days_before_year y + year_length y + 12) :
    1 ≤ monthOf o ∧ monthOf o ≤ 12 := by
  have hy1 : (1:Nat) ≤ y - 1 := by omega
  have hdy0 := dby_succ (y - 1) hy1
  have hy11 : y - 1 + 1 = y := by omega
  rw [hy11] at hdy0
  have hlen0 := year_length_bounds (y - 1)
  have hlen := year_length_bounds y
  have hlen1 := year_length_bounds (y + 1)
  have hdy1 := dby_succ y (by omega)
  by_cases c1 : o ≤ days_before_year y
  · obtain ⟨-, ⟨-, hma, hmb, -, -⟩, -, -⟩ :=
      ord2ymd_range (y - 1) (o - days_before_year (y - 1)) hy1 (by omega) (by omega)
    have heq : days_before_year (y - 1) + (o - days_before_year (y - 1)) = o := by omega
    rw [heq] at hma hmb
    exact ⟨hma, hmb⟩
  · by_cases c2 : o ≤ days_before_year y + year_length y
    · obtain ⟨-, ⟨-, hma, hmb, -, -⟩, -, -⟩ :=
        ord2ymd_range y (o - days_before_year y) (by omega) (by omega) (by omega)
      have heq : days_before_year y + (o - days_before_year y) = o := by omega
      rw [heq] at hma hmb
      exact ⟨hma, hmb⟩
    · obtain ⟨-, ⟨-, hma, hmb, -, -⟩, -, -⟩ :=
        ord2ymd_range (y + 1) (o - days_before_year (y + 1)) (by omega)
          (by omega) (by omega)
      have heq : days_before_year (y + 1) + (o - days_before_year (y + 1)) = o := by omega
      rw [heq] at hma hmb
      exact ⟨hma, hmb⟩

/-- C1: for every year (≥ 2), the months containing at least one day of an ISO
week of the year are exactly months 1..12, the planner emits exactly one month
summary per such month (in calendar order JANUARY..DECEMBER), and a summary is
emitted exactly at the weeks where the anchor Thursday's month differs from
that of the day 7 days earlier — which for weeks ≥ 2 is the previous week's
anchor Thursday. -/
theorem claim_C1 (y : Nat) (r : Bool) (hy : 2 ≤ y) :
    (∀ m, month_has_iso_day y m ↔ (1 ≤ m ∧ m ≤ 12)) ∧
    summary_months (a5_pages y r)
      = (List.range' 1 12).map (fun m => some (month_name_upper m)) ∧
    summary_months (a5_pages y r)
      = (boundary_weeks y (n_weeks_in_year y)).map
          (fun w => some (month_name_upper (anchor_month y w))) ∧
    (∀ w, 2 ≤ w → fromisocalendar y w 4 - 7 = fromisocalendar y (w - 1) 4) := by
  have ha : a5_pages y r = (planner_upto y r (n_weeks_in_year y)).a5_pages := rfl
  have htr := (planner_traces y r hy (n_weeks_in_year y) le_rfl).1
  have hnspec := n_weeks_spec y (by omega)
  refine ⟨?_, ?_, by rw [ha]; exact htr, ?_⟩
  · intro m
    constructor
    · rintro ⟨w, hw1, hwn, i, hi7, hmo⟩
      have s1 := isoweek1monday_spec y (by omega)
      have s2 := isoweek1monday_spec (y + 1) (by omega)
      have hdy := dby_succ y (by omega)
      have hlen := year_length_bounds y
      have ho : fromisocalendar y w 1 = isoweek1monday y + 7 * (w - 1) := by
        unfold fromisocalendar
        omega
      have hbounds := monthOf_bounds3 y (fromisocalendar y w 1 + i) hy
        (by omega) (by omega)
      rw [hmo] at hbounds
      exact hbounds
    · rintro ⟨hm1, hm2⟩
      obtain ⟨w, hw1, hwn, ham⟩ := anchor_month_exists y m (by omega) hm1 hm2
      refine ⟨w, hw1, hwn, 3, by omega, ?_⟩
      have he : fromisocalendar y w 1 + 3 = fromisocalendar y w 4 := by
        unfold fromisocalendar
        omega
      rw [he]
      exact ham
  · have hmap := boundary_anchor_map y hy (n_weeks_in_year y) (by omega) le_rfl
    have hlast := anchor_month_last y (by omega)
    rw [hlast] at hmap
    rw [ha, htr]
    calc (boundary_weeks y (n_weeks_in_year y)).map
          (fun w => some (month_name_upper (anchor_month y w)))
        = ((boundary_weeks y (n_weeks_in_year y)).map (fun w => anchor_month y w)).map
            (fun m => some (month_name_upper m)) := by
          rw [List.map_map]
          rfl
      _ = (List.range' 1 12).map (fun m => some (month_name_upper m)) := by rw [hmap]
  · intro w hw
    unfold fromisocalendar
    omega

/-- Witness for C1 at year 2024. -/
theorem claim_C1_witness :
    2 ≤ 2024 ∧
    summary_months (a5_pages 2024 false)
      = (List.range' 1 12).map (fun m => some (month_name_upper m)) :=
  ⟨by omega, (claim_C1 2024 false (by omega)).2.1⟩

/-- C8: the number of ISO weeks the planner iterates is the ISO week number of
December 28, which indeed lies in the year's last ISO week; exactly that many
week-pad and week day-list pages are emitted, for weeks 1..n in order. -/
theorem claim_C8 (y : Nat) (r : Bool) (hy : 2 ≤ y) :
    n_weeks_in_year y = isoweekOf (ymd2ord y 12 28) ∧
    isoweek1monday y + 7 * (n_weeks_in_year y - 1) ≤ ymd2ord y 12 28 ∧
    ymd2ord y 12 28 < isoweek1monday y + 7 * n_weeks_in_year y ∧
    (isocalendar (ymd2ord y 12 28)).1 = y ∧
    pad_week_descriptions (a5_pages y r)
      = (List.range' 1 (n_weeks_in_year y)).map (fun w => some (week_description y w)) ∧
    daylist_outputs (a5_pages y r)
      = (List.range' 1 (n_weeks_in_year y)).map
          (fun w => "week_daylist_week" ++ toString w ++ ".svg") := by
  have hy1 : (1:Nat) ≤ y := by omega
  have s1 := isoweek1monday_spec y hy1
  have s2 := isoweek1monday_spec (y + 1) (by omega)
  have hdy := dby_succ y hy1
  have hnspec := n_weeks_spec y hy1
  have hord : ymd2ord y 12 28 = days_before_year y + (dbmB (is_leap y) 12 + 28) :=
    ymd2ord_eq_dby_add y 12 28
  have hcases : (dbmB (is_leap y) 12 = 334 ∧ year_length y = 365)
      ∨ (dbmB (is_leap y) 12 = 335 ∧ year_length y = 366) := by
    unfold year_length
    rcases is_leap y with _ | _
    · exact Or.inl ⟨by decide, rfl⟩
    · exact Or.inr ⟨by decide, rfl⟩
  have hcal := isocalendar_spec y (ymd2ord y 12 28) hy1 (by omega) (by omega)
  have hn : n_weeks_in_year y = (ymd2ord y 12 28 - isoweek1monday y) / 7 + 1 := by
    unfold n_weeks_in_year isoweekOf
    rw [hcal]
  have ha : a5_pages y r = (planner_upto y r (n_weeks_in_year y)).a5_pages := rfl
  have htr := planner_traces y r hy (n_weeks_in_year y) le_rfl
  refine ⟨rfl, by omega, by omega, ?_, by rw [ha]; exact htr.2.1, by rw [ha]; exact htr.2.2.1⟩
  rw [hcal]

/-- Witness for C8 at year 2024. -/
theorem claim_C8_witness :
    2 ≤ 2024 ∧
    n_weeks_in_year 2024 = isoweekOf (ymd2ord 2024 12 28) ∧
    isoweek1monday 2024 + 7 * (n_weeks_in_year 2024 - 1) ≤ ymd2ord 2024 12 28 :=
  ⟨by omega, (claim_C8 2024 true (by omega)).1, (claim_C8 2024 true (by omega)).2.1⟩

/-- C5: blank-page insertion.  The run starts with one leading blank exactly in
no-reorder mode; week 1 emits the first month's summary with no blank inserted
before it; and every later month summary (anchor month ≥ 2) is emitted with
exactly one blank page immediately before it. -/
theorem claim_C5 (y : Nat) (r : Bool) (hy : 2 ≤ y) :
    (planner_upto y r 0).a5_pages = (if r then [] else [none]) ∧
    (∃ ps pd dl : A5Page,
      (planner_upto y r 1).a5_pages
        = (if r then [] else [none]) ++ [some ps, some pd, some dl] ∧
      is_month_summary ps = true ∧
      ps.repl "\x7bMONTH\x7d" = some (month_name_upper 1) ∧
      is_week_pad pd = true ∧ is_week_daylist dl = true) ∧
    (∀ w, 2 ≤ w → w ≤ n_weeks_in_year y →
      (week_boundary y w → ∃ ps pd dl : A5Page,
        (planner_upto y r w).a5_pages
          = (planner_upto y r (w - 1)).a5_pages ++ [none, some ps, some pd, some dl] ∧
        is_month_summary ps = true ∧
        ps.repl "\x7bMONTH\x7d" = some (month_name_upper (anchor_month y w)) ∧
        anchor_month y w ≠ 1 ∧
        is_week_pad pd = true ∧ is_week_daylist dl = true) ∧
      (¬ week_boundary y w → ∃ pd dl : A5Page,
        (planner_upto y r w).a5_pages
          = (planner_upto y r (w - 1)).a5_pages ++ [some pd, some dl] ∧
        is_week_pad pd = true ∧ is_week_daylist dl = true)) := by
  refine ⟨by cases r <;> rfl, ?_, ?_⟩
  · have hb := week_boundary_first y hy
    have h1 : anchor_month y 1 = 1 := anchor_month_first y (by omega)
    obtain ⟨ps, pd, dl, hpg, htem, hMON, hpdt, hdlt⟩ :=
      (process_week_block y 1 (planner_upto y r 0)).2 hb
    refine ⟨ps, pd, dl, ?_,
      is_month_summary_of_template ps _ (htem.trans (summary_template_shape _)),
      by rw [hMON, h1], (pad_page_kinds pd hpdt).2.1, (daylist_page_kinds dl hdlt).2.2⟩
    have hsucc : planner_upto y r 1 = process_week y 1 (planner_upto y r 0) :=
      planner_upto_succ y r 0
    rw [hsucc, hpg, if_neg (by omega : ¬ anchor_month y 1 ≠ 1), List.append_nil]
    congr 1
    cases r <;> rfl
  · intro w hw2 hwn
    have hw1 : w = (w - 1) + 1 := by omega
    have hsucc : planner_upto y r w = process_week y w (planner_upto y r (w - 1)) := by
      conv_lhs => rw [hw1]
      rw [planner_upto_succ, ← hw1]
    constructor
    · intro hb
      obtain ⟨ps, pd, dl, hpg, htem, hMON, hpdt, hdlt⟩ :=
        (process_week_block y w (planner_upto y r (w - 1))).2 hb
      have hb' : week_boundary y ((w - 1) + 1) := by rw [← hw1]; exact hb
      obtain ⟨⟨ha1, ha2⟩, hiff⟩ :=
        anchor_month_succ_cases y (w - 1) (by omega) (by omega) (by omega)
      have ham : anchor_month y ((w - 1) + 1) = anchor_month y (w - 1) + 1 := hiff.mp hb'
      have hrange := anchor_month_range y (w - 1) (by omega) (by omega) (by omega)
      have hne : anchor_month y w ≠ 1 := by rw [hw1]; omega
      refine ⟨ps, pd, dl, ?_,
        is_month_summary_of_template ps _ (htem.trans (summary_template_shape _)),
        hMON, hne, (pad_page_kinds pd hpdt).2.1, (daylist_page_kinds dl hdlt).2.2⟩
      rw [hsucc, hpg, if_pos hne, List.append_assoc]
      rfl
    · intro hb
      obtain ⟨pd, dl, hpg, hpdt, hdlt⟩ :=
        (process_week_block y w (planner_upto y r (w - 1))).1 hb
      refine ⟨pd, dl, ?_, (pad_page_kinds pd hpdt).2.1, (daylist_page_kinds dl hdlt).2.2⟩
      rw [hsucc, hpg]

/-- Witness for C5 at year 2024. -/
theorem claim_C5_witness :
    2 ≤ 2024 ∧
    (∃ ps pd dl : A5Page,
      (planner_upto 2024 false 1).a5_pages
        = (if false then [] else [none]) ++ [some ps, some pd, some dl] ∧
      is_month_summary ps = true ∧
      ps.repl "\x7bMONTH\x7d" = some (month_name_upper 1) ∧
      is_week_pad pd = true ∧ is_week_daylist dl = true) :=
  ⟨by omega, (claim_C5 2024 false (by omega)).2.1⟩

/-- C4: every month-summary page of the padded sequence sits at an odd 0-based
position in natural (no-reorder) mode and at an even position in reorder mode,
and in both modes the imposition engine places it in the right-hand slot of
one of the emitted sheets. -/
theorem claim_C4 (y : Nat) (r : Bool) (hy : 2 ≤ y) :
    ∀ i, ∀ hi : i < (pad_pages (a5_pages y r)).length,
      ∀ p : A5Page, (pad_pages (a5_pages y r))[i] = some p →
        is_month_summary p = true →
          i % 2 = (if r then 0 else 1) ∧
          ∃ s, ∃ hs : s < (sheets y r).length,
            ((sheets y r).get ⟨s, hs⟩).2 = some p := by
  intro i hi p hp hsum
  have hpar0 : summaries_at_parity (if r then 0 else 1) (a5_pages y r) := by
    have h := (planner_parity y r hy (n_weeks_in_year y) le_rfl).1
    cases r
    · exact h
    · exact h
  have hpar := summaries_at_parity_pad _ _ hpar0
  have hip := hpar i hi p hp hsum
  refine ⟨hip, ?_⟩
  have hmod : (pad_pages (a5_pages y r)).length % 4 = 0 := by
    simp only [pad_pages, List.length_append, List.length_replicate]
    omega
  obtain ⟨n, hn⟩ : ∃ n, (pad_pages (a5_pages y r)).length = 4 * n :=
    ⟨(pad_pages (a5_pages y r)).length / 4, by omega⟩
  obtain ⟨s, hs, hseq⟩ := impose_right_slot r n (pad_pages (a5_pages y r)) hn i hi hip
  refine ⟨s, hs, ?_⟩
  show ((impose r (pad_pages (a5_pages y r))).get ⟨s, hs⟩).2 = some p
  rw [hseq, List.get_eq_getElem]
  exact hp

/-- Witness for C4: the first page of the 2024 reorder-mode padded sequence is
a month summary, at even position 0, placed right of the first sheet. -/
theorem claim_C4_witness :
    ∃ p : A5Page, ∃ hi : 0 < (pad_pages (a5_pages 2024 true)).length,
      (pad_pages (a5_pages 2024 true))[0] = some p ∧
      is_month_summary p = true ∧
      0 % 2 = (if true then 0 else 1) ∧
      ∃ s, ∃ hs : s < (sheets 2024 true).length,
        ((sheets 2024 true).get ⟨s, hs⟩).2 = some p := by
  have hi : 0 < (pad_pages (a5_pages 2024 true)).length := by decide
  have hmap : ((pad_pages (a5_pages 2024 true))[0]?).map
      (fun o => o.map is_month_summary) = some (some true) := by decide
  rw [List.getElem?_eq_getElem hi] at hmap
  simp only [Option.map_some', Option.some.injEq] at hmap
  rcases hE : (pad_pages (a5_pages 2024 true))[0] with _ | p
  · rw [hE] at hmap
    exact absurd hmap (by simp)
  · rw [hE] at hmap
    simp only [Option.map_some', Option.some.injEq] at hmap
    obtain ⟨h1, h2⟩ := claim_C4 2024 true (by omega) 0 hi p hE hmap
    exact ⟨p, hi, hE, hmap, h1, h2⟩

/-- C10: staleness of the rolling substitution map on week-pad pages.  The pad
page of week `w` snapshots the `{MONTH_DAYS_TEXT}` and day-of-month values of
week `w-1` (absent for `w = 1`), while its `{WEEK_DESCRIPTION_TEXT}` and
`{MONTH}` are current; the day-list page of the same week holds the current
values, so the day-list keys are updated strictly between the two pages. -/
theorem claim_C10 (y : Nat) (r : Bool) (hy : 2 ≤ y) :
    pad_headers (a5_pages y r)
      = (List.range' 1 (n_weeks_in_year y)).map
          (fun w => if w = 1 then none else some (week_header y (w - 1))) ∧
    (∀ i, i < 7 → pad_dom i (a5_pages y r)
      = (List.range' 1 (n_weeks_in_year y)).map
          (fun w => if w = 1 then none
            else some (toString (domOf (fromisocalendar y (w - 1) 1 + i))))) ∧
    pad_week_descriptions (a5_pages y r)
      = (List.range' 1 (n_weeks_in_year y)).map (fun w => some (week_description y w)) ∧
    pad_months (a5_pages y r)
      = (List.range' 1 (n_weeks_in_year y)).map
          (fun w => some (month_name_upper (anchor_month y w))) ∧
    daylist_headers (a5_pages y r)
      = (List.range' 1 (n_weeks_in_year y)).map (fun w => some (week_header y w)) ∧
    (∀ i, i < 7 → daylist_dom i (a5_pages y r)
      = (List.range' 1 (n_weeks_in_year y)).map
          (fun w => some (toString (domOf (fromisocalendar y w 1 + i))))) := by
  obtain ⟨t1, t2, t3, t4, t5, t6, t7, t8, t9, t10⟩ :=
    planner_traces y r hy (n_weeks_in_year y) le_rfl
  have ha : a5_pages y r = (planner_upto y r (n_weeks_in_year y)).a5_pages := rfl
  exact ⟨by rw [ha]; exact t6, fun i hi => by rw [ha]; exact t7 i hi,
    by rw [ha]; exact t2, by rw [ha]; exact t8, by rw [ha]; exact t4,
    fun i hi => by rw [ha]; exact t5 i hi⟩

/-- Witness for C10 at year 2024. -/
theorem claim_C10_witness :
    2 ≤ 2024 ∧
    pad_headers (a5_pages 2024 false)
      = (List.range' 1 (n_weeks_in_year 2024)).map
          (fun w => if w = 1 then none else some (week_header 2024 (w - 1))) :=
  ⟨by omega, (claim_C10 2024 false (by omega)).1⟩

/-- The day-list header in closed form: one month name if Monday and Sunday of
the week share a month, two month names otherwise. -/
theorem week_header_eq (y w : Nat) :
    week_header y w
      = (if monthOf (fromisocalendar y w 1) = monthOf (fromisocalendar y w 1 + 6) then
          month_name_upper (monthOf (fromisocalendar y w 1)) ++ " "
            ++ toString (domOf (fromisocalendar y w 1)) ++ " - "
            ++ toString (domOf (fromisocalendar y w 1 + 6))
        else
          month_name_upper (monthOf (fromisocalendar y w 1)) ++ " "
            ++ toString (domOf (fromisocalendar y w 1)) ++ " - "
            ++ month_name_upper (monthOf (fromisocalendar y w 1 + 6)) ++ " "
            ++ toString (domOf (fromisocalendar y w 1 + 6))) := by
  unfold week_header
  dsimp only
  have e0 : ((List.range 7).map (fun day => fromisocalendar y w 1 + day)).getD 0 0
      = fromisocalendar y w 1 := rfl
  have e6 : ((List.range 7).map (fun day => fromisocalendar y w 1 + day)).getD 6 0
      = fromisocalendar y w 1 + 6 := rfl
  rw [e0, e6]

/-- C7: the seven dates of week `w` are the contiguous span starting on the
Monday of ISO week `w` (day `i` has ISO calendar `(y, w, i+1)`); each week's
day-list page carries the header of its week; the header names one month when
Monday and Sunday share it and both months otherwise; and the week spanning
January 29 – February 4, 2024 yields "JANUARY 29 - FEBRUARY 4". -/
theorem claim_C7 (y w : Nat) (r : Bool) (hy : 2 ≤ y) (h1 : 1 ≤ w)
    (h2 : w ≤ n_weeks_in_year y) :
    (∀ i, i < 7 → isocalendar (fromisocalendar y w 1 + i) = (y, w, i + 1)) ∧
    daylist_headers (a5_pages y r)
      = (List.range' 1 (n_weeks_in_year y)).map (fun v => some (week_header y v)) ∧
    (monthOf (fromisocalendar y w 1) = monthOf (fromisocalendar y w 1 + 6) →
      week_header y w
        = month_name_upper (monthOf (fromisocalendar y w 1)) ++ " "
          ++ toString (domOf (fromisocalendar y w 1)) ++ " - "
          ++ toString (domOf (fromisocalendar y w 1 + 6))) ∧
    (monthOf (fromisocalendar y w 1) ≠ monthOf (fromisocalendar y w 1 + 6) →
      week_header y w
        = month_name_upper (monthOf (fromisocalendar y w 1)) ++ " "
          ++ toString (domOf (fromisocalendar y w 1)) ++ " - "
          ++ month_name_upper (monthOf (fromisocalendar y w 1 + 6)) ++ " "
          ++ toString (domOf (fromisocalendar y w 1 + 6))) ∧
    week_header 2024 5 = "JANUARY 29 - FEBRUARY 4" := by
  have hnspec := n_weeks_spec y (by omega)
  have ha : a5_pages y r = (planner_upto y r (n_weeks_in_year y)).a5_pages := rfl
  refine ⟨?_, ?_, ?_, ?_, by decide⟩
  · intro i hi
    have ho : fromisocalendar y w 1 + i = isoweek1monday y + (7 * (w - 1) + i) := by
      unfold fromisocalendar
      omega
    rw [ho, isocalendar_spec y _ (by omega) (by omega) (by omega)]
    have hd : isoweek1monday y + (7 * (w - 1) + i) - isoweek1monday y
        = 7 * (w - 1) + i := by omega
    rw [hd]
    have hdiv : (7 * (w - 1) + i) / 7 = w - 1 := by omega
    have hmod : (7 * (w - 1) + i) % 7 = i := by omega
    rw [hdiv, hmod]
    have hw : w - 1 + 1 = w := by omega
    rw [hw]
  · rw [ha]
    exact (planner_traces y r hy (n_weeks_in_year y) le_rfl).2.2.2.1
  · intro h
    rw [week_header_eq, if_pos h]
  · intro h
    rw [week_header_eq, if_neg h]

/-- Witness for C7 at 2024, ISO week 5 (January 29 – February 4). -/
theorem claim_C7_witness :
    (2 ≤ 2024 ∧ 1 ≤ 5 ∧ 5 ≤ n_weeks_in_year 2024) ∧
    week_header 2024 5 = "JANUARY 29 - FEBRUARY 4" ∧
    (∀ i, i < 7 → isocalendar (fromisocalendar 2024 5 1 + i) = (2024, 5, i + 1)) :=
  ⟨⟨by omega, by omega, by decide⟩,
    (claim_C7 2024 5 false (by omega) (by omega) (by decide)).2.2.2.2,
    (claim_C7 2024 5 false (by omega) (by omega) (by decide)).1⟩

/-! ### The month grid: geometry, cell contents, and the week count -/

theorem dbmB_le_305 (l : Bool) (m : Nat) (hm : m ≤ 11) : dbmB l m ≤ 305 := by
  have H : ∀ l : Bool, ∀ m : Fin 12, dbmB l m.val ≤ 305 := by decide
  exact H l ⟨m, by omega⟩

theorem dbmB_small_one (l : Bool) (m : Nat) (h1 : 1 ≤ m) (h2 : m ≤ 12)
    (h : dbmB l m ≤ 30) : m = 1 := by
  have H : ∀ l : Bool, ∀ m : Fin 13, 1 ≤ m.val → dbmB l m.val ≤ 30 → m.val = 1 := by decide
  exact H l ⟨m, by omega⟩ h1 h

theorem dbmB_big_twelve (l : Bool) (m : Nat) (h2 : m ≤ 12) (h : 306 ≤ dbmB l m) :
    m = 12 := by
  have H : ∀ l : Bool, ∀ m : Fin 13, 306 ≤ dbmB l m.val → m.val = 12 := by decide
  exact H l ⟨m, by omega⟩ h

theorem dbmB_one (l : Bool) : dbmB l 1 = 0 := by
  rcases l with _ | _ <;> decide

theorem dbmB_le_335 (l : Bool) (m : Nat) (hm : m ≤ 12) : dbmB l m ≤ 335 := by
  have H : ∀ l : Bool, ∀ m : Fin 13, dbmB l m.val ≤ 335 := by decide
  exact H l ⟨m, by omega⟩

/-- Every ordinal within a few days of year `y`'s span lies in the ISO-week
interval (between consecutive week-1 Mondays) of some year. -/
theorem iso_cover3 (y o : Nat) (hy : 2 ≤ y) (hlo : days_before_year y ≤ o + 5)
    (hhi : o ≤ days_before_year y + year_length y + 12) :
    ∃ Y, 1 ≤ Y ∧ isoweek1monday Y ≤ o ∧ o < isoweek1monday (Y + 1) := by
  have hy1 : (1:Nat) ≤ y - 1 := by omega
  have hy11 : y - 1 + 1 = y := by omega
  have s0 := isoweek1monday_spec (y - 1) hy1
  have s1 := isoweek1monday_spec y (by omega)
  have s2 := isoweek1monday_spec (y + 1) (by omega)
  have s3 := isoweek1monday_spec (y + 2) (by omega)
  have hdy0 := dby_succ (y - 1) hy1
  rw [hy11] at hdy0
  have hdy1 := dby_succ y (by omega)
  have hdy2 := dby_succ (y + 1) (by omega)
  rw [show y + 1 + 1 = y + 2 from rfl] at hdy2
  have hlen0 := year_length_bounds (y - 1)
  have hlen1 := year_length_bounds y
  have hlen2 := year_length_bounds (y + 1)
  by_cases c1 : o < isoweek1monday y
  · refine ⟨y - 1, hy1, by omega, ?_⟩
    rw [hy11]
    exact c1
  · by_cases c2 : o < isoweek1monday (y + 1)
    · exact ⟨y, by omega, by omega, c2⟩
    · refine ⟨y + 1, by omega, by omega, ?_⟩
      show o < isoweek1monday (y + 2)
      omega

theorem isoweekOf_in_interval (Y o : Nat) (h1 : 1 ≤ Y) (ha : isoweek1monday Y ≤ o)
    (hb : o < isoweek1monday (Y + 1)) :
    isoweekOf o = (o - isoweek1monday Y) / 7 + 1 := by
  unfold isoweekOf
  rw [isocalendar_spec Y o h1 ha hb]

/-- The ISO week number is constant along a Monday-aligned block of 7 days. -/
theorem isoweekOf_block (y M j : Nat) (hy : 2 ≤ y) (hM7 : M % 7 = 1) (hj : j ≤ 6)
    (hlo : days_before_year y ≤ M + j + 5)
    (hhi : M + j ≤ days_before_year y + year_length y + 12) :
    isoweekOf (M + j) = isoweekOf M := by
  obtain ⟨Y, hY1, hYa, hYb⟩ := iso_cover3 y (M + j) hy hlo hhi
  have hs := isoweek1monday_spec Y hY1
  have haM : isoweek1monday Y ≤ M := by omega
  rw [isoweekOf_in_interval Y (M + j) hY1 hYa hYb,
      isoweekOf_in_interval Y M hY1 haM (by omega)]
  omega

/-- Week-1 Mondays grow by at least 364 days per year. -/
theorem w1m_le (a : Nat) (ha : 1 ≤ a) :
    ∀ d, isoweek1monday a + 364 * d ≤ isoweek1monday (a + d) := by
  intro d
  induction d with
  | zero => simp
  | succ e ih =>
    have hd := w1m_succ_diff (a + e) (by omega)
    have hsucc : a + (e + 1) = a + e + 1 := by omega
    rw [hsucc]
    omega

/-- Two distinct Mondays at most 5 weeks apart never share an ISO week number,
even across an ISO year boundary. -/
theorem isoweekOf_mondays_ne (Y Z M k : Nat) (hY1 : 1 ≤ Y) (hle : Y ≤ Z)
    (hle2 : Z ≤ Y + 1) (hk1 : 1 ≤ k) (hk2 : k ≤ 5)
    (ha : isoweek1monday Y ≤ M) (hb : M < isoweek1monday (Y + 1))
    (ha2 : isoweek1monday Z ≤ M + 7 * k) (hb2 : M + 7 * k < isoweek1monday (Z + 1)) :
    isoweekOf M ≠ isoweekOf (M + 7 * k) := by
  have hnY := n_weeks_spec Y hY1
  rw [isoweekOf_in_interval Y M hY1 ha hb,
      isoweekOf_in_interval Z (M + 7 * k) (by omega) ha2 hb2]
  rcases Nat.eq_or_lt_of_le hle with hZY | hlt
  · subst hZY
    omega
  · have hZ : Z = Y + 1 := by omega
    subst hZ
    omega

/-- Distinctness of the ISO week numbers of the grid's Mondays. -/
theorem grid_mondays_ne (y M k : Nat) (hy : 2 ≤ y) (hM7 : M % 7 = 1)
    (hk1 : 1 ≤ k) (hk2 : k ≤ 5)
    (hlo : days_before_year y ≤ M + 5)
    (hhi : M + 7 * k ≤ days_before_year y + year_length y + 12) :
    isoweekOf M ≠ isoweekOf (M + 7 * k) := by
  obtain ⟨Y, hY1, hYa, hYb⟩ := iso_cover3 y M hy (by omega) (by omega)
  obtain ⟨Z, hZ1, hZa, hZb⟩ := iso_cover3 y (M + 7 * k) hy (by omega) (by omega)
  have hYZ : Y ≤ Z := by
    by_contra hc
    have h1 : Z + 1 ≤ Y := by omega
    have hm := w1m_le (Z + 1) (by omega) (Y - (Z + 1))
    have he : Z + 1 + (Y - (Z + 1)) = Y := by omega
    rw [he] at hm
    omega
  have hZY1 : Z ≤ Y + 1 := by
    by_contra hc
    have hm := w1m_le (Y + 1) (by omega) (Z - (Y + 1))
    have he : Y + 1 + (Z - (Y + 1)) = Z := by omega
    rw [he] at hm
    omega
  exact isoweekOf_mondays_ne Y Z M k hY1 hYZ hZY1 hk1 hk2 hYa hYb hZa hZb

/-- `first_day_of_grid` is the Monday on or before the 1st of the month. -/
theorem first_grid_day_spec (y m : Nat) (hy : 2 ≤ y) (_hm1 : 1 ≤ m) (hm2 : m ≤ 12) :
    first_grid_day y m % 7 = 1 ∧
    first_grid_day y m ≤ ymd2ord y m 1 ∧
    ymd2ord y m 1 < first_grid_day y m + 7 := by
  have hord : ymd2ord y m 1 = days_before_year y + (dbmB (is_leap y) m + 1) :=
    ymd2ord_eq_dby_add y m 1
  have hdbm := dbmB_le_335 (is_leap y) m hm2
  have hlen := year_length_bounds y
  obtain ⟨Y, hY1, hYa, hYb⟩ := iso_cover3 y (ymd2ord y m 1) hy (by omega) (by omega)
  have hs := isoweek1monday_spec Y hY1
  have hcal := isocalendar_spec Y (ymd2ord y m 1) hY1 hYa hYb
  unfold first_grid_day
  dsimp only
  rw [hcal]
  dsimp only
  refine ⟨?_, ?_, ?_⟩ <;> omega

/-- A day near month `(y, m)` belongs to month `m` exactly when it lies between
the 1st of the month and its last day, and its day of month is then its offset
from the 1st plus one. -/
theorem month_cell_iff (y m o : Nat) (hy : 2 ≤ y) (hm1 : 1 ≤ m) (hm2 : m ≤ 12)
    (hlo : ymd2ord y m 1 ≤ o + 6) (hhi : o < ymd2ord y m 1 + 42) :
    (monthOf o = m ↔
      (ymd2ord y m 1 ≤ o ∧ o < ymd2ord y m 1 + days_in_month y m)) ∧
    (monthOf o = m → domOf o = o + 1 - ymd2ord y m 1) := by
  have hord1 : ymd2ord y m 1 = days_before_year y + (dbmB (is_leap y) m + 1) :=
    ymd2ord_eq_dby_add y m 1
  have hdim : days_in_month y m = dimB (is_leap y) m := days_in_month_eq y m
  have hdimlo := one_le_dimB (is_leap y) m hm1 hm2
  have hdimhi := dimB_le_31 (is_leap y) m hm2
  have hdbm := dbmB_le_335 (is_leap y) m hm2
  have hlen := year_length_bounds y
  have hdy1 := dby_succ y (by omega)
  have hy1 : (1:Nat) ≤ y - 1 := by omega
  have hy11 : y - 1 + 1 = y := by omega
  have hdy0 := dby_succ (y - 1) hy1
  rw [hy11] at hdy0
  have hlen0 := year_length_bounds (y - 1)
  have hlen1 := year_length_bounds (y + 1)
  have hfwd : monthOf o = m →
      (ymd2ord y m 1 ≤ o ∧ o < ymd2ord y m 1 + days_in_month y m)
        ∧ domOf o = o + 1 - ymd2ord y m 1 := by
    intro hmo
    by_cases c1 : o ≤ days_before_year y
    · exfalso
      obtain ⟨-, hvd, hsum, -⟩ :=
        ord2ymd_range (y - 1) (o - days_before_year (y - 1)) hy1 (by omega) (by omega)
      have heq : days_before_year (y - 1) + (o - days_before_year (y - 1)) = o := by omega
      rw [heq] at hvd hsum
      obtain ⟨-, hm1', hm2', hd1', hd2'⟩ := hvd
      rw [days_in_month_eq] at hd2'
      have hdim' := dimB_le_31 (is_leap (y - 1)) (monthOf o) hm2'
      have hdbm1 : dbmB (is_leap y) m ≤ 5 := by omega
      have hme : m = 1 := dbmB_small_one (is_leap y) m hm1 hm2 (by omega)
      subst hme
      have hmo12 : 306 ≤ dbmB (is_leap (y - 1)) (monthOf o) := by omega
      have h12 : monthOf o = 12 := dbmB_big_twelve (is_leap (y - 1)) (monthOf o) hm2' hmo12
      omega
    · by_cases c2 : o ≤ days_before_year y + year_length y
      · obtain ⟨-, hvd, hsum, -⟩ :=
          ord2ymd_range y (o - days_before_year y) (by omega) (by omega) (by omega)
        have heq : days_before_year y + (o - days_before_year y) = o := by omega
        rw [heq] at hvd hsum
        obtain ⟨-, hm1', hm2', hd1', hd2'⟩ := hvd
        rw [days_in_month_eq] at hd2'
        rw [hmo] at hsum hd2'
        refine ⟨⟨by omega, ?_⟩, by omega⟩
        rw [hdim]
        omega
      · exfalso
        obtain ⟨-, hvd, hsum, -⟩ :=
          ord2ymd_range (y + 1) (o - days_before_year (y + 1)) (by omega)
            (by omega) (by omega)
        have heq : days_before_year (y + 1) + (o - days_before_year (y + 1)) = o := by omega
        rw [heq] at hvd hsum
        obtain ⟨-, hm1', hm2', hd1', hd2'⟩ := hvd
        have hdbm12 : 306 ≤ dbmB (is_leap y) m := by omega
        have hme : m = 12 := dbmB_big_twelve (is_leap y) m hm2 hdbm12
        have hsmall : dbmB (is_leap (y + 1)) (monthOf o) ≤ 30 := by omega
        have h1 : monthOf o = 1 :=
          dbmB_small_one (is_leap (y + 1)) (monthOf o) hm1' hm2' hsmall
        omega
  have hbwd : (ymd2ord y m 1 ≤ o ∧ o < ymd2ord y m 1 + days_in_month y m) →
      monthOf o = m := by
    rintro ⟨hA, hB⟩
    rw [hdim] at hB
    have hval : ValidDate y m (o + 1 - ymd2ord y m 1) := by
      refine ⟨by omega, hm1, hm2, by omega, ?_⟩
      rw [days_in_month_eq]
      omega
    have hordo : ymd2ord y m (o + 1 - ymd2ord y m 1) = o := by
      rw [ymd2ord_eq_dby_add]
      omega
    have hm' := monthOf_ymd2ord y m _ hval
    rw [hordo] at hm'
    exact hm'
  exact ⟨⟨fun h => (hfwd h).1, hbwd⟩, fun h => (hfwd h).2⟩

/-- Unfolding the `weeks_in_month` fold: collected elements are the ISO week
numbers of the in-month cells. -/
theorem grid_weeks_fold (y m : Nat) :
    ∀ (l : List Nat) (s : Finset Nat) (x : Nat),
      (x ∈ l.foldl (fun s day =>
        let date := first_grid_day y m + day
        if monthOf date ≠ m then s else insert (isoweekOf date) s) s
      ↔ x ∈ s ∨ ∃ d ∈ l, monthOf (first_grid_day y m + d) = m
          ∧ x = isoweekOf (first_grid_day y m + d)) := by
  intro l
  induction l with
  | nil =>
    intro s x
    simp
  | cons a t ih =>
    intro s x
    simp only [List.foldl_cons]
    rw [ih]
    by_cases hm : monthOf (first_grid_day y m + a) ≠ m
    · rw [if_pos hm]
      constructor
      · rintro (hx | ⟨d, hd, hdm, hdx⟩)
        · exact Or.inl hx
        · exact Or.inr ⟨d, List.mem_cons_of_mem a hd, hdm, hdx⟩
      · rintro (hx | ⟨d, hd, hdm, hdx⟩)
        · exact Or.inl hx
        · rcases List.mem_cons.mp hd with hda | hdt
          · subst hda
            exact absurd hdm hm
          · exact Or.inr ⟨d, hdt, hdm, hdx⟩
    · rw [if_neg hm]
      have hm' : monthOf (first_grid_day y m + a) = m := not_not.mp hm
      constructor
      · rintro (hx | ⟨d, hd, hdm, hdx⟩)
        · rcases Finset.mem_insert.mp hx with he | hs
          · exact Or.inr ⟨a, List.mem_cons_self a t, hm', he⟩
          · exact Or.inl hs
        · exact Or.inr ⟨d, List.mem_cons_of_mem a hd, hdm, hdx⟩
      · rintro (hx | ⟨d, hd, hdm, hdx⟩)
        · exact Or.inl (Finset.mem_insert_of_mem hx)
        · rcases List.mem_cons.mp hd with hda | hdt
          · subst hda
            exact Or.inl (Finset.mem_insert.mpr (Or.inl hdx))
          · exact Or.inr ⟨d, hdt, hdm, hdx⟩

/-- Membership in the `weeks_in_month` set. -/
theorem grid_weeks_mem (y m x : Nat) :
    x ∈ grid_weeks y m
      ↔ ∃ d, d < 42 ∧ monthOf (first_grid_day y m + d) = m
          ∧ x = isoweekOf (first_grid_day y m + d) := by
  unfold grid_weeks
  rw [grid_weeks_fold]
  simp only [Finset.not_mem_empty, false_or, List.mem_range]

/-- The number of distinct ISO week numbers among the in-month cells is 4, 5
or 6. -/
theorem grid_weeks_card (y m : Nat) (hy : 2 ≤ y) (hm1 : 1 ≤ m) (hm2 : m ≤ 12) :
    4 ≤ (grid_weeks y m).card ∧ (grid_weeks y m).card ≤ 6 := by
  obtain ⟨hF7, hFle, hFlt⟩ := first_grid_day_spec y m hy hm1 hm2
  have hord1 : ymd2ord y m 1 = days_before_year y + (dbmB (is_leap y) m + 1) :=
    ymd2ord_eq_dby_add y m 1
  have hdbm := dbmB_le_335 (is_leap y) m hm2
  have hdim28 := dimB_ge_28 (is_leap y) m hm1 hm2
  have hdim31 := dimB_le_31 (is_leap y) m hm2
  have hdimeq : days_in_month y m = dimB (is_leap y) m := days_in_month_eq y m
  have hlen := year_length_bounds y
  have hcell : ∀ d, d < 42 →
      (monthOf (first_grid_day y m + d) = m ↔
        (ymd2ord y m 1 ≤ first_grid_day y m + d ∧
          first_grid_day y m + d < ymd2ord y m 1 + days_in_month y m)) := by
    intro d hd
    exact (month_cell_iff y m (first_grid_day y m + d) hy hm1 hm2
      (by omega) (by omega)).1
  -- distinctness of the block Mondays
  have hne : ∀ b1 b2, b1 < b2 → b2 ≤ 5 →
      isoweekOf (first_grid_day y m + 7 * b1) ≠ isoweekOf (first_grid_day y m + 7 * b2) := by
    intro b1 b2 hlt hb2
    have he : first_grid_day y m + 7 * b2
        = (first_grid_day y m + 7 * b1) + 7 * (b2 - b1) := by omega
    rw [he]
    exact grid_mondays_ne y (first_grid_day y m + 7 * b1) (b2 - b1) hy (by omega)
      (by omega) (by omega) (by omega) (by omega)
  -- each cell's week is its block Monday's week
  have hblock : ∀ d, d < 42 →
      isoweekOf (first_grid_day y m + d)
        = isoweekOf (first_grid_day y m + 7 * (d / 7)) := by
    intro d hd
    have he : first_grid_day y m + d
        = (first_grid_day y m + 7 * (d / 7)) + d % 7 := by omega
    rw [he]
    exact isoweekOf_block y (first_grid_day y m + 7 * (d / 7)) (d % 7) hy (by omega)
      (by omega) (by omega) (by omega)
  constructor
  · -- 4 ≤ card: the four Mondays of blocks 0..3 all have in-month cells
    have hc0 : isoweekOf (first_grid_day y m + 7 * 0) ∈ grid_weeks y m := by
      rw [grid_weeks_mem]
      refine ⟨ymd2ord y m 1 - first_grid_day y m, by omega, ?_, ?_⟩
      · rw [hcell _ (by omega)]
        omega
      · have he : first_grid_day y m + (ymd2ord y m 1 - first_grid_day y m)
            = first_grid_day y m + 7 * 0 + (ymd2ord y m 1 - first_grid_day y m) := by omega
        rw [he]
        exact (isoweekOf_block y (first_grid_day y m + 7 * 0)
          (ymd2ord y m 1 - first_grid_day y m) hy (by omega) (by omega) (by omega)
          (by omega)).symm
    have hcb : ∀ b, 1 ≤ b → b ≤ 3 →
        isoweekOf (first_grid_day y m + 7 * b) ∈ grid_weeks y m := by
      intro b hb1 hb3
      rw [grid_weeks_mem]
      refine ⟨7 * b, by omega, ?_, rfl⟩
      rw [hcell _ (by omega)]
      omega
    have h1 := hcb 1 (by omega) (by omega)
    have h2 := hcb 2 (by omega) (by omega)
    have h3 := hcb 3 (by omega) (by omega)
    have hsub : ({isoweekOf (first_grid_day y m + 7 * 0),
        isoweekOf (first_grid_day y m + 7 * 1),
        isoweekOf (first_grid_day y m + 7 * 2),
        isoweekOf (first_grid_day y m + 7 * 3)} : Finset Nat) ⊆ grid_weeks y m := by
      intro x hx
      simp only [Finset.mem_insert, Finset.mem_singleton] at hx
      rcases hx with h | h | h | h <;> subst h
      · exact hc0
      · exact h1
      · exact h2
      · exact h3
    have hcard4 : ({isoweekOf (first_grid_day y m + 7 * 0),
        isoweekOf (first_grid_day y m + 7 * 1),
        isoweekOf (first_grid_day y m + 7 * 2),
        isoweekOf (first_grid_day y m + 7 * 3)} : Finset Nat).card = 4 := by
      rw [Finset.card_insert_of_not_mem (by
        simp only [Finset.mem_insert, Finset.mem_singleton]
        push_neg
        exact ⟨hne 0 1 (by omega) (by omega), hne 0 2 (by omega) (by omega),
          hne 0 3 (by omega) (by omega)⟩)]
      rw [Finset.card_insert_of_not_mem (by
        simp only [Finset.mem_insert, Finset.mem_singleton]
        push_neg
        exact ⟨hne 1 2 (by omega) (by omega), hne 1 3 (by omega) (by omega)⟩)]
      rw [Finset.card_insert_of_not_mem (by
        simp only [Finset.mem_singleton]
        exact hne 2 3 (by omega) (by omega))]
      rw [Finset.card_singleton]
    calc 4 = ({isoweekOf (first_grid_day y m + 7 * 0),
        isoweekOf (first_grid_day y m + 7 * 1),
        isoweekOf (first_grid_day y m + 7 * 2),
        isoweekOf (first_grid_day y m + 7 * 3)} : Finset Nat).card := hcard4.symm
      _ ≤ (grid_weeks y m).card := Finset.card_le_card hsub
  · -- card ≤ 6: every element is one of the six block Mondays' weeks
    have hsub6 : grid_weeks y m ⊆
        ({isoweekOf (first_grid_day y m + 7 * 0),
          isoweekOf (first_grid_day y m + 7 * 1),
          isoweekOf (first_grid_day y m + 7 * 2),
          isoweekOf (first_grid_day y m + 7 * 3),
          isoweekOf (first_grid_day y m + 7 * 4),
          isoweekOf (first_grid_day y m + 7 * 5)} : Finset Nat) := by
      intro x hx
      rw [grid_weeks_mem] at hx
      obtain ⟨d, hd, hdm, hdx⟩ := hx
      rw [hblock d hd] at hdx
      subst hdx
      simp only [Finset.mem_insert, Finset.mem_singleton]
      have hd7 : d / 7 ≤ 5 := by omega
      obtain ⟨b, hb5, hbe⟩ : ∃ b, b ≤ 5 ∧ d / 7 = b := ⟨d / 7, by omega, rfl⟩
      rw [hbe]
      interval_cases b
      · exact Or.inl rfl
      · exact Or.inr (Or.inl rfl)
      · exact Or.inr (Or.inr (Or.inl rfl))
      · exact Or.inr (Or.inr (Or.inr (Or.inl rfl)))
      · exact Or.inr (Or.inr (Or.inr (Or.inr (Or.inl rfl))))
      · exact Or.inr (Or.inr (Or.inr (Or.inr (Or.inr rfl))))
    have hc6 : ({isoweekOf (first_grid_day y m + 7 * 0),
          isoweekOf (first_grid_day y m + 7 * 1),
          isoweekOf (first_grid_day y m + 7 * 2),
          isoweekOf (first_grid_day y m + 7 * 3),
          isoweekOf (first_grid_day y m + 7 * 4),
          isoweekOf (first_grid_day y m + 7 * 5)} : Finset Nat).card ≤ 6 := by
      have c5 := Finset.card_insert_le (isoweekOf (first_grid_day y m + 7 * 0))
        ({isoweekOf (first_grid_day y m + 7 * 1),
          isoweekOf (first_grid_day y m + 7 * 2),
          isoweekOf (first_grid_day y m + 7 * 3),
          isoweekOf (first_grid_day y m + 7 * 4),
          isoweekOf (first_grid_day y m + 7 * 5)} : Finset Nat)
      have c4 := Finset.card_insert_le (isoweekOf (first_grid_day y m + 7 * 1))
        ({isoweekOf (first_grid_day y m + 7 * 2),
          isoweekOf (first_grid_day y m + 7 * 3),
          isoweekOf (first_grid_day y m + 7 * 4),
          isoweekOf (first_grid_day y m + 7 * 5)} : Finset Nat)
      have c3 := Finset.card_insert_le (isoweekOf (first_grid_day y m + 7 * 2))
        ({isoweekOf (first_grid_day y m + 7 * 3),
          isoweekOf (first_grid_day y m + 7 * 4),
          isoweekOf (first_grid_day y m + 7 * 5)} : Finset Nat)
      have c2 := Finset.card_insert_le (isoweekOf (first_grid_day y m + 7 * 3))
        ({isoweekOf (first_grid_day y m + 7 * 4),
          isoweekOf (first_grid_day y m + 7 * 5)} : Finset Nat)
      have c1 := Finset.card_insert_le (isoweekOf (first_grid_day y m + 7 * 4))
        ({isoweekOf (first_grid_day y m + 7 * 5)} : Finset Nat)
      have c0 : ({isoweekOf (first_grid_day y m + 7 * 5)} : Finset Nat).card = 1 :=
        Finset.card_singleton _
      omega
    exact le_trans (Finset.card_le_card hsub6) hc6

/-- C6: the month summary's 42-cell grid starts at the Monday on or before the
1st of the month and contains all of the month's days; each out-of-month cell
is replaced by the empty string and each in-month cell by its day-of-month
number; and the template is selected by the number of distinct ISO week
numbers among the in-month cells, which is always 4, 5 or 6. -/
theorem claim_C6 (y m : Nat) (st : PMState) (hy : 2 ≤ y) (hm1 : 1 ≤ m) (hm2 : m ≤ 12) :
    ∃ ps : A5Page,
      (process_month y m st).a5_pages
        = st.a5_pages ++ (if m ≠ 1 then [none] else []) ++ [some ps] ∧
      ps.template = "month_summary_" ++ toString ((grid_weeks y m).card) ++ "wk.svg" ∧
      first_grid_day y m % 7 = 1 ∧
      isoweekday (first_grid_day y m) = 1 ∧
      first_grid_day y m ≤ ymd2ord y m 1 ∧
      ymd2ord y m 1 < first_grid_day y m + 7 ∧
      ymd2ord y m 1 + days_in_month y m ≤ first_grid_day y m + 42 ∧
      (∀ d, d < 42 →
        (monthOf (first_grid_day y m + d) = m ↔
          (ymd2ord y m 1 ≤ first_grid_day y m + d ∧
            first_grid_day y m + d < ymd2ord y m 1 + days_in_month y m))) ∧
      (∀ d, d < 42 → monthOf (first_grid_day y m + d) ≠ m →
        ps.repl (grid_key d) = some "") ∧
      (∀ d, d < 42 → monthOf (first_grid_day y m + d) = m →
        ps.repl (grid_key d)
          = some (toString (first_grid_day y m + d + 1 - ymd2ord y m 1))) ∧
      (∀ x, x ∈ grid_weeks y m ↔ ∃ d, d < 42 ∧ monthOf (first_grid_day y m + d) = m
          ∧ x = isoweekOf (first_grid_day y m + d)) ∧
      4 ≤ (grid_weeks y m).card ∧ (grid_weeks y m).card ≤ 6 := by
  obtain ⟨ps, hpages, hrepl, htem, hout, hMON, hgrid, hmiss⟩ := process_month_shape y m st
  obtain ⟨hF7, hFle, hFlt⟩ := first_grid_day_spec y m hy hm1 hm2
  have hdim31 := dimB_le_31 (is_leap y) m hm2
  have hdimeq : days_in_month y m = dimB (is_leap y) m := days_in_month_eq y m
  have hwd : isoweekday (first_grid_day y m) = 1 := by
    unfold isoweekday
    rw [hF7]
    rfl
  have hcell : ∀ d, d < 42 →
      (monthOf (first_grid_day y m + d) = m ↔
        (ymd2ord y m 1 ≤ first_grid_day y m + d ∧
          first_grid_day y m + d < ymd2ord y m 1 + days_in_month y m)) := by
    intro d hd
    exact (month_cell_iff y m (first_grid_day y m + d) hy hm1 hm2 (by omega) (by omega)).1
  have hdom : ∀ d, d < 42 → monthOf (first_grid_day y m + d) = m →
      domOf (first_grid_day y m + d) = first_grid_day y m + d + 1 - ymd2ord y m 1 := by
    intro d hd
    exact (month_cell_iff y m (first_grid_day y m + d) hy hm1 hm2 (by omega) (by omega)).2
  have hcards := grid_weeks_card y m hy hm1 hm2
  refine ⟨ps, hpages, htem, hF7, hwd, hFle, by omega, by omega, hcell, ?_, ?_,
    fun x => grid_weeks_mem y m x, hcards.1, hcards.2⟩
  · intro d hd hne
    rw [hgrid d hd, if_pos hne]
  · intro d hd heq
    rw [hgrid d hd, if_neg (fun hc => hc heq), hdom d hd heq]

/-- Witness for C6 at January 2024. -/
theorem claim_C6_witness :
    (2 ≤ 2024 ∧ (1:Nat) ≤ 1 ∧ (1:Nat) ≤ 12) ∧
    (4 ≤ (grid_weeks 2024 1).card ∧ (grid_weeks 2024 1).card ≤ 6) ∧
    first_grid_day 2024 1 ≤ ymd2ord 2024 1 1 := by
  obtain ⟨ps, h1, h2, h3, h4, h5, h6, h7, h8, h9, h10, h11, h12, h13⟩ :=
    claim_C6 2024 1 (planner_init true) (by omega) (by omega) (by omega)
  exact ⟨⟨by omega, by omega, by omega⟩, ⟨h12, h13⟩, h5⟩

end Planner
